import Mathlib

/-!
# AI Mini Agent Builder: the execution and state core of `src/App.jsx`

A shallow embedding of the CSV parser, the history manager, the graph store
helpers, the runners and the execution engine of `App.jsx`, followed by the
properties proved about them.

Conventions of the embedding.

* A JavaScript string is the list of its UTF-16 code units, each held in a
  `Char`; strings with code units in the surrogate range are outside the model.
  Every character test in the source (`"`, `,`, backslash, line feed, carriage
  return, white space) concerns such code units only.
* A React state cell is a field of `World`.  A handler created by `useCallback`
  reads the cells through the constants of the render that created it, and a
  setter only schedules the next value.  A handler is therefore a function of
  the world it was rendered in (its closure) and of the pending world that its
  setters update, in the order of the setter calls.
* `JSON.parse(JSON.stringify(x))` is the identity on the immutable values of the
  model, all of which are JSON data.
-/

namespace AgentBuilder

/-- A string: the list of its code units. -/
abbrev Str := List Char

/-! ## CSV parser (`App.jsx`, lines 203-239) -/

/-- The code units that `String.prototype.trim` strips: the `WhiteSpace` and
`LineTerminator` productions of ECMAScript. -/
def isJsSpace (c : Char) : Bool :=
  let n := c.toNat
  n == 0x09 || n == 0x0A || n == 0x0B || n == 0x0C || n == 0x0D || n == 0x20 ||
  n == 0xA0 || n == 0x1680 || (0x2000 ≤ n && n ≤ 0x200A) || n == 0x2028 ||
  n == 0x2029 || n == 0x202F || n == 0x205F || n == 0x3000 || n == 0xFEFF

/-- The code units that `.` of a regular expression does not match. -/
def isLineTerminator (c : Char) : Bool :=
  let n := c.toNat
  n == 0x0A || n == 0x0D || n == 0x2028 || n == 0x2029

/-- `s.trim()`. -/
def trim (s : Str) : Str :=
  ((s.dropWhile isJsSpace).reverse.dropWhile isJsSpace).reverse

/-- `s.replace(/\\"/g, '"')`: every backslash followed by a double quote,
scanning from the left, becomes a double quote. -/
def unescapeQuotes : Str → Str
  | [] => []
  | '\\' :: '"' :: rest => '"' :: unescapeQuotes rest
  | c :: rest => c :: unescapeQuotes rest

/-- `s.replace(/^"(.*)"$/, "$1")`: a string that starts and ends with a double
quote (two distinct ones) and has no line terminator in between loses both. -/
def unwrapQuotes (s : Str) : Str :=
  match s with
  | '"' :: rest =>
    if rest.getLast? = some '"' ∧ rest.dropLast.all (fun c => !isLineTerminator c) then
      rest.dropLast
    else s
  | _ => s

/-- The `for` loop of `splitCSVLine`.  `prev` is `line[i - 1]` (`none` when
`i === 0`), `out` and `cur` are the variables of the same name. -/
def splitLoop (prev : Option Char) (inQuotes : Bool) (cur : Str) (out : List Str) :
    Str → List Str
  | [] => out ++ [cur]
  | ch :: rest =>
    if ch = '"' ∧ prev ≠ some '\\' then
      splitLoop (some ch) (!inQuotes) cur out rest
    else if ch = ',' ∧ inQuotes = false then
      splitLoop (some ch) inQuotes [] (out ++ [cur]) rest
    else
      splitLoop (some ch) inQuotes (cur ++ [ch]) out rest

/-- The final `out.map(...)` of `splitCSVLine`. -/
def cleanField (s : Str) : Str :=
  unwrapQuotes (unescapeQuotes (trim s))

/-- `splitCSVLine(line)`. -/
def splitCSVLine (line : Str) : List Str :=
  (splitLoop none false [] [] line).map cleanField

/-- `s.split("\n")`. -/
def splitNewline : Str → List Str
  | [] => [[]]
  | c :: rest =>
    if c = '\n' then [] :: splitNewline rest
    else
      match splitNewline rest with
      | [] => [[c]]
      | l :: ls => (c :: l) :: ls

/-- A record built by `parseCSV`: the own string-valued properties of a plain
object, in insertion order.  (The order in which JavaScript enumerates keys is
used by no modelled function other than through membership.) -/
abbrev Row := List (Str × Str)

/-- The key whose assignment on a plain object reaches the accessor of
`Object.prototype`. -/
def protoKey : Str := "__proto__".toList

/-- The assignment `row[k] = v` for a string `v`: an existing property is
overwritten in place, a new one is appended, and assigning a string to
`__proto__` is ignored by the setter of `Object.prototype`. -/
def rowSet (row : Row) (k v : Str) : Row :=
  if k = protoKey then row
  else if row.any (fun p => p.1 = k) then
    row.map (fun p => if p.1 = k then (k, v) else p)
  else row ++ [(k, v)]

/-- The own property `row[k]`, `none` for `undefined`.  (It is `row[k]` for
every key that is not a property of `Object.prototype`.) -/
def rowGet (row : Row) (k : Str) : Option Str :=
  (row.find? (fun p => p.1 = k)).map (fun p => p.2)

/-- `Object.keys(row)` up to order. -/
def rowKeys (row : Row) : List Str := row.map (fun p => p.1)

/-- The body `headers.forEach((h, idx) => { row[h] = cols[idx] ?? "" })` run on
the object `row`, `idx` starting at `start`. -/
def fillRow (cols : List Str) : Nat → List Str → Row → Row
  | _, [], row => row
  | idx, h :: hs, row => fillRow cols (idx + 1) hs (rowSet row h (cols.getD idx []))

/-- One iteration of the `for` loop of `parseCSV`: the record of a data line. -/
def buildRow (headers : List Str) (line : Str) : Row :=
  fillRow (splitCSVLine line) 0 headers []

/-- The lines kept by `parseCSV`:
`text.replace(/\r/g, "").split("\n").filter((l) => l.trim().length > 0)`. -/
def nonBlankLines (text : Str) : List Str :=
  (splitNewline (text.filter (fun c => c ≠ '\r'))).filter (fun l => 0 < (trim l).length)

/-- `parseCSV(text)`. -/
def parseCSV (text : Str) : List Row :=
  match nonBlankLines text with
  | [] => []
  | header :: dataLines =>
    let headers := splitCSVLine header
    dataLines.map (buildRow headers)

/-- The text of a field with each double quote replaced by backslash-quote (the
escaping that `splitCSVLine` undoes). -/
def escapeQuotes : Str → Str
  | [] => []
  | c :: rest =>
    if c = '"' then '\\' :: '"' :: escapeQuotes rest else c :: escapeQuotes rest

/-- A field wrapped in one pair of double quotes. -/
def quoteField (f : Str) : Str := '"' :: (f ++ ['"'])

/-- The fields wrapped in double quotes and joined with commas. -/
def quotedLine (fs : List Str) : Str := List.intercalate [','] (fs.map quoteField)

/-- No leading and no trailing white space, in the sense of `trim`. -/
def NoOuterSpace (s : Str) : Prop :=
  (∀ c, s.head? = some c → isJsSpace c = false) ∧
  (∀ c, s.getLast? = some c → isJsSpace c = false)

instance (s : Str) : Decidable (NoOuterSpace s) :=
  decidable_of_iff
    ((s.head?.all fun c => !isJsSpace c) = true ∧ (s.getLast?.all fun c => !isJsSpace c) = true)
    (by unfold NoOuterSpace; cases s.head? <;> cases s.getLast? <;> simp)

/-- The reading of the parser contract in which every header column, whatever
its name, is mapped by every record to the field of the same column. -/
def RecordsFollowColumns (text : Str) : Prop :=
  ∀ (i j : Nat) (line : Str) (row : Row) (h : Str),
    (nonBlankLines text).get? (i + 1) = some line →
    (parseCSV text).get? i = some row →
    (splitCSVLine ((nonBlankLines text).headD [])).get? j = some h →
    rowGet row h = some ((splitCSVLine line).getD j [])

/-! ## Graph store (`App.jsx`, lines 18-30 and 241-271) -/

/-- The four values that `data.status` takes. -/
inductive Status where
  | idle
  | running
  | success
  | error
  deriving DecidableEq, Repr

/-- A JSON scalar, or an array of strings (the only arrays the code makes). -/
inductive JAtom where
  | null
  | num (n : Nat)
  | str (s : Str)
  | strs (xs : List Str)
  deriving DecidableEq

/-- A JSON value as the code stores it in a configuration or a result: a scalar
or a flat object. -/
inductive JVal where
  | atom (a : JAtom)
  | obj (fields : List (Str × JAtom))
  deriving DecidableEq

/-- The open mapping `data.config`, in insertion order. -/
abbrev Config := List (Str × JVal)

/-- The property `config[k]`, `none` for `undefined`. -/
def configGet (config : Config) (k : Str) : Option JVal :=
  (config.find? (fun p => p.1 = k)).map (fun p => p.2)

/-- One property of a spread: overwritten in place when present, appended
otherwise. -/
def configSet (config : Config) (k : Str) (v : JVal) : Config :=
  if config.any (fun p => p.1 = k) then
    config.map (fun p => if p.1 = k then (k, v) else p)
  else config ++ [(k, v)]

/-- The shallow merge `{ ...config, ...patch }`. -/
def configMerge (config patch : Config) : Config :=
  patch.foldl (fun c p => configSet c p.1 p.2) config

/-- A canvas coordinate.  The modelled code only carries coordinates. -/
structure Pos where
  x : Int
  y : Int
  deriving DecidableEq

/-- The `data` object of a node. -/
structure NodeData where
  id : Str
  label : Str
  icon : Str
  kind : Str
  status : Status
  config : Config
  deriving DecidableEq

/-- A node of the graph store (`nodeType` is the field `type`). -/
structure Node where
  id : Str
  nodeType : Str
  position : Pos
  data : NodeData
  selected : Bool
  deriving DecidableEq

/-- An edge of the graph store. -/
structure Edge where
  id : Str
  source : Str
  target : Str
  selected : Bool
  deriving DecidableEq

/-- A snapshot: the node list and the edge list. -/
structure Graph where
  nodes : List Node
  edges : List Edge
  deriving DecidableEq

/-- The runtime store `runtimeRef.current`; `none` is `null`. -/
structure Runtime where
  csv : Option (List Row)
  csvMeta : Option (Str × Nat)
  lastAI : Option Str
  lastAnalysis : Option JVal
  deriving DecidableEq

/-- The state cells of `Canvas` together with the module variable `idCounter`. -/
structure World where
  nodes : List Node
  edges : List Edge
  history : List Graph
  future : List Graph
  log : List Str
  runtime : Runtime
  idCounter : Nat
  deriving DecidableEq

/-- The state of a freshly mounted `Canvas`. -/
def initialWorld : World where
  nodes := []
  edges := []
  history := [⟨[], []⟩]
  future := []
  log := []
  runtime := ⟨none, none, none, none⟩
  idCounter := 1

/-- The decimal text of a count. -/
def natStr (n : Nat) : Str := Nat.toDigits 10 n

/-- The text of the identifier made by `getId()` when `idCounter` is `n`. -/
def getId (n : Nat) : Str := "node_".toList ++ natStr n

/-- `pushLog(line)`, the time text `ts` being what `toLocaleTimeString` returns. -/
def pushLog (ts : Str) (line : Str) (log : List Str) : List Str :=
  log.drop (log.length - 199) ++ ["[".toList ++ ts ++ "] ".toList ++ line]

/-- The updater of `setNodeStatus(nodeId, status)`. -/
def setNodeStatus (nodes : List Node) (nodeId : Str) (status : Status) : List Node :=
  nodes.map (fun n => if n.id = nodeId then { n with data := { n.data with status := status } } else n)

/-- The updater of `patchNodeConfig(nodeId, patch)`. -/
def patchNodeConfig (nodes : List Node) (nodeId : Str) (patch : Config) : List Node :=
  nodes.map (fun n =>
    if n.id = nodeId then
      { n with data := { n.data with config := configMerge n.data.config patch } }
    else n)

/-- `getOutgoing(nodeId)`. -/
def getOutgoing (edges : List Edge) (nodeId : Str) : List Str :=
  (edges.filter (fun e => e.source = nodeId)).map (fun e => e.target)

/-- `findNode(nodeId)`. -/
def findNode (nodes : List Node) (nodeId : Str) : Option Node :=
  nodes.find? (fun n => n.id = nodeId)

/-! ## History manager (`App.jsx`, lines 47-58 and 75-156) -/

/-- `snapshot()` of the render `c`: a deep copy of its node and edge lists. -/
def snapshot (c : World) : Graph := ⟨c.nodes, c.edges⟩

/-- `pushHistory()` called in the render `c` with pending state `w`: the snapshot
appended is the one of the render, whatever the handler has scheduled before. -/
def pushHistory (c : World) (w : World) : World :=
  { w with history := w.history ++ [snapshot c], future := [] }

/-- The payload of a toolbar item. -/
structure Payload where
  label : Str
  icon : Str
  kind : Str
  deriving DecidableEq

/-- `addNode(payload)` in the render `c`; `position` is the random position drawn
at line 78. -/
def addNode (c : World) (payload : Payload) (position : Pos) : World :=
  let id := getId c.idCounter
  let newNode : Node :=
    { id := id, nodeType := "custom".toList, position := position,
      data := { id := id, label := payload.label, icon := payload.icon, kind := payload.kind,
                status := Status.idle, config := [] },
      selected := false }
  pushHistory c { c with idCounter := c.idCounter + 1, nodes := c.nodes ++ [newNode] }

/-- `deleteSelected()` in the render `c`.  A `Set` of identifiers is the list of
them, used through membership only. -/
def deleteSelected (c : World) : World :=
  let selectedNodeIds : List Str := (c.nodes.filter (fun n => n.selected)).map (fun n => n.id)
  let selectedEdgeIds : List Str := (c.edges.filter (fun e => e.selected)).map (fun e => e.id)
  if selectedNodeIds = [] ∧ selectedEdgeIds = [] then c
  else
    let w := pushHistory c c
    let remainingEdges :=
      (c.edges.filter (fun e => e.id ∉ selectedEdgeIds)).filter
        (fun e => e.source ∉ selectedNodeIds ∧ e.target ∉ selectedNodeIds)
    let remainingNodes := c.nodes.filter (fun n => n.id ∉ selectedNodeIds)
    { w with edges := remainingEdges, nodes := remainingNodes }

/-- `undo()` in the render `c`.  The history is matched from its end: `current`
is `history[history.length - 1]`, `prev` is `history[history.length - 2]`, and
the last case is the early return for `history.length <= 1`. -/
def undo (c : World) : World :=
  match c.history.reverse with
  | current :: prev :: _ =>
    { c with future := current :: c.future, history := c.history.dropLast,
             nodes := prev.nodes, edges := prev.edges }
  | _ => c

/-- `redo()` in the render `c`. -/
def redo (c : World) : World :=
  match c.future with
  | [] => c
  | next :: rest =>
    { c with history := c.history ++ [snapshot c], future := rest,
             nodes := next.nodes, edges := next.edges }

/-- The world after the toolbar items `adds` were clicked one after the other,
each click in the render that follows the previous one. -/
def addNodes (w : World) (adds : List (Payload × Pos)) : World :=
  adds.foldl (fun w a => addNode w a.1 a.2) w

/-- The round trip of undo and redo: after the clicks `adds` on a fresh canvas,
`k` undos followed by `k` redos give back the live graph. -/
def UndoRedoRoundTrip (adds : List (Payload × Pos)) (k : Nat) : Prop :=
  snapshot (redo^[k] (undo^[k] (addNodes initialWorld adds))) =
    snapshot (addNodes initialWorld adds)

/-! ## Runners (`App.jsx`, lines 273-350) -/

/-- What a runner returns: `data` is `none` when the property is absent. -/
structure RunResult where
  ok : Bool
  msg : Str
  data : Option JVal
  deriving DecidableEq

/-- The outcome of the chat request of `runAI`: `failed` is any path into the
`catch` (transport error, status outside 2xx, body that is not JSON), `replied r`
a JSON body whose `reply` field is the string `r`, or has none. -/
inductive FetchOutcome where
  | failed
  | replied (reply : Option Str)
  deriving DecidableEq

/-- What the environment supplies to one run of a node: the text of
`new Date().toLocaleTimeString()`, the outcome of the chat request, and the
message text the engine gives to the `TypeError` of a call of a missing method. -/
structure Env where
  now : Str
  fetch : FetchOutcome
  typeErrorMessage : Str

/-- Truthiness of a JSON value. -/
def jsTruthy : JVal → Bool
  | JVal.atom JAtom.null => false
  | JVal.atom (JAtom.num n) => n != 0
  | JVal.atom (JAtom.str s) => s != []
  | JVal.atom (JAtom.strs _) => true
  | JVal.obj _ => true

/-- The text of a value inside a template literal. -/
def jsString : JVal → Str
  | JVal.atom JAtom.null => "null".toList
  | JVal.atom (JAtom.num n) => natStr n
  | JVal.atom (JAtom.str s) => s
  | JVal.atom (JAtom.strs xs) => List.intercalate [','] xs
  | JVal.obj _ => "[object Object]".toList

/-- The fixed advisory text of lines 284 and 305. -/
def advisory : Str :=
  ("Metal frame stock status: we currently have a decent quantity in storage, assorted " ++
   "sizes available. Please verify the latest count before dispatching. " ++
   "\nRequesting for approval").toList

/-- `runStart()`. -/
def runStart : RunResult := ⟨true, "Start".toList, none⟩

/-- The value of `runtimeRef.current.csvMeta` as result data. -/
def csvMetaVal : Option (Str × Nat) → JVal
  | none => JVal.atom JAtom.null
  | some (name, size) =>
    JVal.obj [("name".toList, JAtom.str name), ("size".toList, JAtom.num size)]

/-- `runUpload(nodeId)` with the nodes of its render. -/
def runUpload (nodes : List Node) (rt : Runtime) (nodeId : Str) : RunResult :=
  match (findNode nodes nodeId).bind (fun n => configGet n.data.config "filename".toList) with
  | none => ⟨false, "No file selected.".toList, none⟩
  | some filename =>
    if jsTruthy filename then
      ⟨true, "File ready: ".toList ++ jsString filename, some (csvMetaVal rt.csvMeta)⟩
    else ⟨false, "No file selected.".toList, none⟩

/-- `runScript()`. -/
def runScript (rt : Runtime) : RunResult :=
  match rt.csv with
  | none => ⟨false, advisory, none⟩
  | some csv =>
    if csv.length = 0 then ⟨false, advisory, none⟩
    else ⟨true, "CSV present.".toList, some (JVal.obj [("rows".toList, JAtom.num csv.length)])⟩

/-- `prompt.slice(0, 80)` inside the template literal of line 303: a string or
an array has a `slice`, any other value raises the `TypeError`. -/
def promptSlice (typeErrorMessage : Str) : JVal → Except Str Str
  | JVal.atom (JAtom.str s) => Except.ok (s.take 80)
  | JVal.atom (JAtom.strs xs) => Except.ok (List.intercalate [','] (xs.take 80))
  | _ => Except.error typeErrorMessage

/-- `runAI(nodeId)` with the nodes of its render; an error is the exception that
leaves the `catch` block. -/
def runAI (env : Env) (nodes : List Node) (rt : Runtime) (nodeId : Str) :
    Except Str (RunResult × Runtime) :=
  let prompt : JVal :=
    match (findNode nodes nodeId).bind (fun n => configGet n.data.config "prompt".toList) with
    | none => JVal.atom (JAtom.str "Hello model".toList)
    | some v => if jsTruthy v then v else JVal.atom (JAtom.str "Hello model".toList)
  match env.fetch with
  | FetchOutcome.replied reply =>
    let lastAI := reply.getD []
    Except.ok (⟨true, "AI reply received.".toList, some (JVal.atom (JAtom.str lastAI))⟩,
      { rt with lastAI := some lastAI })
  | FetchOutcome.failed =>
    match promptSlice env.typeErrorMessage prompt with
    | Except.error e => Except.error e
    | Except.ok head =>
      let mock := "(mock) Model response to: ".toList ++ head
      Except.ok (⟨true, advisory, some (JVal.atom (JAtom.str mock))⟩, { rt with lastAI := some mock })

/-- The value `key` of line 319: the first of the four names that is a property
of the first row, else `Object.keys(csv)`, the array of the row indices. -/
def uniqueKey (csv : List Row) : JAtom :=
  match ["user".toList, "username".toList, "email".toList, "id".toList].find?
      (fun k => k ∈ rowKeys (csv.headD [])) with
  | some k => JAtom.str k
  | none => JAtom.strs ((List.range csv.length).map natStr)

/-- The number `new Set(csv.map((r) => r[key])).size` of line 320, the property
name being the text of `key`. -/
def uniqueCount (csv : List Row) (key : JAtom) : Nat :=
  ((csv.map (fun r => rowGet r (jsString (JVal.atom key)))).dedup).length

/-- `runAnalysis(opOverride)`; `none` is an absent argument. -/
def runAnalysis (rt : Runtime) (opOverride : Option Str) : RunResult × Runtime :=
  let csv := rt.csv.getD []
  if csv.length = 0 then (⟨false, "CSV not loaded.".toList, none⟩, rt)
  else
    let op := match opOverride with
      | none => "row_count".toList
      | some o => if o = [] then "row_count".toList else o
    if op = "row_count".toList then
      let data := JVal.obj [("type".toList, JAtom.str "row_count".toList),
                            ("value".toList, JAtom.num csv.length)]
      (⟨true, "Rows: ".toList ++ natStr csv.length, some data⟩, { rt with lastAnalysis := some data })
    else if op = "unique_users".toList then
      let key := uniqueKey csv
      let uniq := uniqueCount csv key
      let data := JVal.obj [("type".toList, JAtom.str "unique".toList), ("key".toList, key),
                            ("value".toList, JAtom.num uniq)]
      (⟨true, "Unique by ".toList ++ jsString (JVal.atom key) ++ ": ".toList ++ natStr uniq,
          some data⟩,
        { rt with lastAnalysis := some data })
    else if op = "question".toList then
      (⟨true, "Answered (demo).".toList,
          some (JVal.obj [("type".toList, JAtom.str "answer".toList),
                          ("value".toList, JAtom.str "question".toList)])⟩, rt)
    else (⟨true, "Analysis ".toList ++ op ++ " done.".toList, none⟩, rt)

/-- The column names searched by `findNoManager`, in order. -/
def managerKeys : List Str :=
  ["manager".toList, "manager_id".toList, "manager_email".toList, "managerName".toList,
   "managerId".toList]

/-- The test of the filter of `findNoManager` on the value `r[key]`. -/
def isNoManager (v : Option Str) : Bool :=
  let t := trim (v.getD [])
  t = [] || t = "null".toList || t = "undefined".toList

/-- `findNoManager(csv)`. -/
def findNoManager (csv : List Row) : List Row :=
  let cols := match csv with
    | [] => []
    | first :: _ => rowKeys first
  match managerKeys.find? (fun k => k ∈ cols) with
  | none => []
  | some key => csv.filter (fun r => isNoManager (rowGet r key))

/-- `runCheck()`. -/
def runCheck (rt : Runtime) : RunResult :=
  let csv := rt.csv.getD []
  if csv.length = 0 then ⟨false, "CSV not loaded.".toList, none⟩
  else
    let candidates := findNoManager csv
    ⟨true, "Found ".toList ++ natStr candidates.length ++ " users with no manager.".toList,
      some (JVal.obj [("noManager".toList, JAtom.num candidates.length)])⟩

/-! ## Execution engine and event handlers (`App.jsx`, lines 352-432) -/

/-- The `try` block of `runNode`: the runner of the kind, with the runtime store
it leaves; an error is a thrown exception with its message. -/
def dispatch (env : Env) (nodes : List Node) (rt : Runtime) (kind : Str) (nodeId : Str)
    (opOverride : Option Str) : Except Str (RunResult × Runtime) :=
  if kind = "start".toList then Except.ok (runStart, rt)
  else if kind = "upload".toList then Except.ok (runUpload nodes rt nodeId, rt)
  else if kind = "script".toList then Except.ok (runScript rt, rt)
  else if kind = "ai".toList then runAI env nodes rt nodeId
  else if kind = "analysis".toList then Except.ok (runAnalysis rt opOverride)
  else if kind = "check".toList then Except.ok (runCheck rt, rt)
  else Except.ok (⟨true, ".......".toList, none⟩, rt)

/-- The `try`/`catch` of `runNode`: a thrown exception becomes a failed result
with `err?.message || "Error"`, and the runtime store stays as it was. -/
def settle (rt : Runtime) : Except Str (RunResult × Runtime) → RunResult × Runtime
  | Except.ok r => r
  | Except.error m => (⟨false, if m = [] then "Error".toList else m, none⟩, rt)

/-- The patch `{ lastMsg: result.msg, lastResult: result.data ?? null }`. -/
def resultPatch (result : RunResult) : Config :=
  [("lastMsg".toList, JVal.atom (JAtom.str result.msg)),
   ("lastResult".toList, result.data.getD (JVal.atom JAtom.null))]

/-- The live node list once `runNode` has marked the node as running (line 357). -/
def runNodeEnter (w : World) (nodeId : Str) : List Node :=
  setNodeStatus w.nodes nodeId Status.running

/-- `runNode(nodeId, opOverride)` started in the render `c`, the live state
being `w`: the node is looked up in the node list of the render, the setters
update the live state. -/
def runNode (env : Env) (c : Graph) (w : World) (nodeId : Str) (opOverride : Option Str) :
    RunResult × World :=
  match findNode c.nodes nodeId with
  | none => (⟨false, "Node not found.".toList, none⟩, w)
  | some node =>
    let kind := if node.data.kind = [] then "generic".toList else node.data.kind
    let running := runNodeEnter w nodeId
    let (result, rt) := settle w.runtime (dispatch env c.nodes w.runtime kind nodeId opOverride)
    let settled := setNodeStatus running nodeId (if result.ok then Status.success else Status.error)
    let patched := patchNodeConfig settled nodeId (resultPatch result)
    let label := if node.data.label = [] then nodeId else node.data.label
    (result,
      { w with nodes := patched, runtime := rt,
               log := pushLog env.now (label ++ ": ".toList ++ result.msg) w.log })

/-- `runNodeAndNext(nodeId)` started in the render `c`.  `envs i` is what the
environment supplies to the `i`-th run of the chain, `step` the index of this
run; the recursion of the source has no bound, so the model takes a bound `fuel`
on the number of runs and returns `none` when it is exhausted. -/
def runNodeAndNext (envs : Nat → Env) (c : Graph) :
    Nat → Nat → World → Str → Option World
  | 0, _, _, _ => none
  | fuel + 1, step, w, nodeId =>
    let (res, w1) := runNode (envs step) c w nodeId none
    if res.ok = false then some w1
    else
      match getOutgoing c.edges nodeId with
      | [] => some w1
      | next :: _ => runNodeAndNext envs c fuel (step + 1) w1 next

/-- The file of an upload event: `file.name`, `file.size`, `await file.text()`. -/
structure UploadFile where
  name : Str
  size : Nat
  text : Str

/-- The handler `onUpload` of the topic `rf/upload`; `ts` is the time text of its
log line. -/
def onUpload (ts : Str) (w : World) (nodeId : Str) (file : UploadFile) : World :=
  let rows := parseCSV file.text
  { w with
    runtime := { w.runtime with csv := some rows, csvMeta := some (file.name, file.size) }
    nodes := setNodeStatus
      (patchNodeConfig w.nodes nodeId [("filename".toList, JVal.atom (JAtom.str file.name))])
      nodeId Status.success
    log := pushLog ts ("Upload: ".toList ++ file.name ++ " (".toList ++ natStr rows.length ++
      " rows)".toList) w.log }

/-- The handler `onUpdateConfig` of the topic `rf/update-config`. -/
def onUpdateConfig (w : World) (nodeId : Str) (patch : Config) : World :=
  { w with nodes := patchNodeConfig w.nodes nodeId patch }

/-- The statuses of the nodes called `nodeId`, in list order. -/
def statusesOf (nodes : List Node) (nodeId : Str) : List Status :=
  (nodes.filter (fun n => n.id = nodeId)).map (fun n => n.data.status)

instance (adds : List (Payload × Pos)) (k : Nat) : Decidable (UndoRedoRoundTrip adds k) := by
  unfold UndoRedoRoundTrip; infer_instance

/-- The first item of the toolbar (`Toolbar.jsx`, `ITEMS[0]`). -/
def startItem : Payload := ⟨"Start".toList, "▶️".toList, "start".toList⟩

/-- The world after one click on the toolbar item `Start` on a fresh canvas. -/
def oneNodeWorld : World := addNode initialWorld startItem ⟨120, 100⟩

/-- A world with the nodes `n1` (selected) and `n2`, the edge `e1` from `n1` to
`n2` and the edge `e2` from `n2` to `n2`. -/
def twoNodeWorld : World :=
  { initialWorld with
    nodes :=
      [ { id := "n1".toList, nodeType := "custom".toList, position := ⟨0, 0⟩,
          data := ⟨"n1".toList, "Start".toList, [], "start".toList, Status.idle, []⟩,
          selected := true },
        { id := "n2".toList, nodeType := "custom".toList, position := ⟨10, 0⟩,
          data := ⟨"n2".toList, "Script".toList, [], "script".toList, Status.idle, []⟩,
          selected := false } ]
    edges := [⟨"e1".toList, "n1".toList, "n2".toList, false⟩,
              ⟨"e2".toList, "n2".toList, "n2".toList, false⟩] }

/-- The world after one click on the toolbar item `Upload File` on a fresh
canvas. -/
def uploadWorld : World :=
  addNode initialWorld ⟨"Upload File".toList, "📂".toList, "upload".toList⟩ ⟨120, 100⟩

/-- A file with a header line and one data line. -/
def sampleFile : UploadFile := ⟨"users.csv".toList, 8, "id,name\n1,Ann".toList⟩

/-- An environment whose chat request fails. -/
def offlineEnv : Env := ⟨"10:00:00".toList, FetchOutcome.failed, "slice is not a function".toList⟩

/-- The reading of the status contract for the upload handler: it never takes a
status from idle directly to a terminal one. -/
def UploadKeepsIdle (ts : Str) (w : World) (nodeId : Str) (file : UploadFile) : Prop :=
  ∀ n ∈ w.nodes, n.id = nodeId → n.data.status = Status.idle →
    statusesOf (onUpload ts w nodeId file).nodes nodeId = statusesOf w.nodes nodeId

instance (ts : Str) (w : World) (nodeId : Str) (file : UploadFile) :
    Decidable (UploadKeepsIdle ts w nodeId file) := by
  unfold UploadKeepsIdle; infer_instance

/-- A start node called `s`. -/
def chainStart : Node :=
  { id := "s".toList, nodeType := "custom".toList, position := ⟨0, 0⟩,
    data := ⟨"s".toList, "Start".toList, [], "start".toList, Status.idle, []⟩,
    selected := false }

/-- A script node called `a`. -/
def chainScript : Node :=
  { id := "a".toList, nodeType := "custom".toList, position := ⟨10, 0⟩,
    data := ⟨"a".toList, "Script".toList, [], "script".toList, Status.idle, []⟩,
    selected := false }

/-- A check node called `b`. -/
def chainCheck : Node :=
  { id := "b".toList, nodeType := "custom".toList, position := ⟨20, 0⟩,
    data := ⟨"b".toList, "Checks".toList, [], "check".toList, Status.idle, []⟩,
    selected := false }

/-- A world with the chain `s -> a -> b` of a start node, a script node and a
check node, and no CSV in the runtime store. -/
def chainWorld : World :=
  { initialWorld with
    nodes := [chainStart, chainScript, chainCheck]
    edges := [⟨"e1".toList, "s".toList, "a".toList, false⟩,
              ⟨"e2".toList, "a".toList, "b".toList, false⟩] }

/-- The number of distinct header names (keys) of the rows. -/
def headerCount (csv : List Row) : Nat :=
  ((csv.map rowKeys).flatten.dedup).length

/-- The property name that line 320 reads when no user column exists: the row
indices joined with commas. -/
def indexKey (csv : List Row) : Str :=
  List.intercalate [','] ((List.range csv.length).map natStr)

/-- The data `{ type: "unique", key, value }` of a unique_users result. -/
def uniqueData (key : JAtom) (value : Nat) : JVal :=
  JVal.obj [("type".toList, JAtom.str "unique".toList), ("key".toList, key),
    ("value".toList, JAtom.num value)]

/-- A runtime store holding the rows of the CSV text `a,b / 1,2`. -/
def abStore : Runtime := ⟨some (parseCSV "a,b\n1,2".toList), none, none, none⟩

/-- The number of rows whose value under `key` is literally the empty string,
`null` or `undefined`. -/
def literalNoManagerCount (csv : List Row) (key : Str) : Nat :=
  csv.countP (fun r =>
    rowGet r key = some [] || rowGet r key = some "null".toList ||
      rowGet r key = some "undefined".toList)

/-- The number of rows whose value under `key`, taken as empty when the row has
none and with surrounding white space removed, is the empty string, `null` or
`undefined`. -/
def trimmedNoManagerCount (csv : List Row) (key : Str) : Nat :=
  csv.countP (fun r =>
    trim ((rowGet r key).getD []) = [] || trim ((rowGet r key).getD []) = "null".toList ||
      trim ((rowGet r key).getD []) = "undefined".toList)

/-- The result of the check runner that reports `n` rows. -/
def checkResult (n : Nat) : RunResult :=
  ⟨true, "Found ".toList ++ natStr n ++ " users with no manager.".toList,
    some (JVal.obj [("noManager".toList, JAtom.num n)])⟩

/-- A runtime store holding the rows of a CSV text whose only data line is the
field backslash-quote, space, backslash-quote under the header `manager`. -/
def blankManagerStore : Runtime :=
  ⟨some (parseCSV "manager\n\\\" \\\"".toList), none, none, none⟩

/-- A runtime store with five rows, two of them without manager. -/
def fiveRowStore : Runtime :=
  ⟨some (parseCSV "name,manager\nann,bob\nbob,\ncat,null\ndan,ann\neve,bob".toList),
    none, none, none⟩

/-- The entry that `pushLog(line)` stores at the time text `ts`. -/
def logEntry (p : Str × Str) : Str := "[".toList ++ p.1 ++ "] ".toList ++ p.2

/-- The log after the calls `pushLog(line)` of `pushes`, in order, each pair being
the time text and the line of one call. -/
def pushLogs (log : List Str) (pushes : List (Str × Str)) : List Str :=
  pushes.foldl (fun l p => pushLog p.1 p.2 l) log

/-- A runtime store holding the rows of a CSV text with the column `user` and
the values `a`, `b`, `a`. -/
def userStore : Runtime := ⟨some (parseCSV "user,age\na,1\nb,2\na,3".toList), none, none, none⟩

/-- A node as a run with the result `r` leaves it: the status of the result, and
the configuration merged with the patch of the result. -/
def settledNode (r : RunResult) (n : Node) : Node :=
  { n with data := { n.data with
      status := if r.ok then Status.success else Status.error
      config := configMerge n.data.config (resultPatch r) } }

/-- An AI node called `m` whose `prompt` is the number 5, a value without
`slice`. -/
def numberPromptNode : Node :=
  { id := "m".toList, nodeType := "custom".toList, position := ⟨0, 0⟩,
    data := ⟨"m".toList, "AI Model".toList, [], "ai".toList, Status.idle,
      [("prompt".toList, JVal.atom (JAtom.num 5))]⟩,
    selected := false }

/-- A world with the node `numberPromptNode` and the check node `b`. -/
def numberPromptWorld : World :=
  { initialWorld with nodes := [numberPromptNode, chainCheck] }

/-- The world after the runs of the nodes of `path`, one after the other in list
order, `step` being the index of the first run. -/
def runPath (envs : Nat → Env) (c : Graph) : Nat → World → List Str → World
  | _, w, [] => w
  | step, w, nodeId :: rest =>
    runPath envs c (step + 1) (runNode (envs step) c w nodeId none).2 rest

/-- A path of first outgoing edges: each node but the last has the next node as
the target of its first outgoing edge (in edge order, whatever further edges it
has), and the last node has no outgoing edge. -/
def FirstEdgePath (edges : List Edge) : List Str → Prop
  | [] => False
  | [last] => getOutgoing edges last = []
  | a :: b :: rest => (getOutgoing edges a).head? = some b ∧ FirstEdgePath edges (b :: rest)

/-- Every node of `path` runs ok when the nodes are run one after the other. -/
def AllRunOk (envs : Nat → Env) (c : Graph) : Nat → World → List Str → Prop
  | _, _, [] => True
  | step, w, nodeId :: rest =>
    (runNode (envs step) c w nodeId none).1.ok = true ∧
    AllRunOk envs c (step + 1) (runNode (envs step) c w nodeId none).2 rest

/-- A cloud node called `a`. -/
def branchCloud : Node :=
  { id := "a".toList, nodeType := "custom".toList, position := ⟨10, 0⟩,
    data := ⟨"a".toList, "Cloud Function".toList, [], "cloud".toList, Status.idle, []⟩,
    selected := false }

/-- A world where the start node `s` has two outgoing edges, first to the cloud
node `a` and then to the check node `b`, and `a` has none. -/
def branchWorld : World :=
  { initialWorld with
    nodes := [chainStart, branchCloud, chainCheck]
    edges := [⟨"e1".toList, "s".toList, "a".toList, false⟩,
              ⟨"e2".toList, "s".toList, "b".toList, false⟩] }

/-! ## The successive values of the node list -/

/-- The successive values of the state cell `nodes` during `runNode(nodeId,
opOverride)` started in the render `c` on the live list `w.nodes`: the value
before the call, then the value after each setter call in source order, that is
after `setNodeStatus(nodeId, "running")` (line 357), after
`setNodeStatus(nodeId, result.ok ? "success" : "error")` (line 372) and after
`patchNodeConfig(nodeId, payload)` (line 375).  A run that returns at line 355
calls no setter. -/
def runNodeTrace (env : Env) (c : Graph) (w : World) (nodeId : Str) (opOverride : Option Str) :
    List (List Node) :=
  match findNode c.nodes nodeId with
  | none => [w.nodes]
  | some node =>
    let kind := if node.data.kind = [] then "generic".toList else node.data.kind
    let running := setNodeStatus w.nodes nodeId Status.running
    let result := (settle w.runtime (dispatch env c.nodes w.runtime kind nodeId opOverride)).1
    let settled := setNodeStatus running nodeId (if result.ok then Status.success else Status.error)
    let patched := patchNodeConfig settled nodeId (resultPatch result)
    [w.nodes, running, settled, patched]

/-- The successive values of the state cell `nodes` during `onUpload`: the value
before, the value after `patchNodeConfig(nodeId, { filename })` (line 405) and
the value after `setNodeStatus(nodeId, "success")` (line 406). -/
def onUploadTrace (w : World) (nodeId : Str) (file : UploadFile) : List (List Node) :=
  let patched :=
    patchNodeConfig w.nodes nodeId [("filename".toList, JVal.atom (JAtom.str file.name))]
  [w.nodes, patched, setNodeStatus patched nodeId Status.success]

/-- The successive values of the state cell `nodes` during `onUpdateConfig`. -/
def onUpdateConfigTrace (w : World) (nodeId : Str) (patch : Config) : List (List Node) :=
  [w.nodes, patchNodeConfig w.nodes nodeId patch]

/-- The statuses that the node at position `i` of the list takes along successive
values of the node list. -/
def statusesAt (trace : List (List Node)) (i : Nat) : List (Option Status) :=
  trace.map (fun nodes => (nodes.get? i).map (fun n => n.data.status))

/-- A move of a status that the life cycle allows: no move, a move to running
from any status, or a move from running to success or to error. -/
def StatusStep (a b : Status) : Prop :=
  a = b ∨ b = Status.running ∨ (a = Status.running ∧ (b = Status.success ∨ b = Status.error))

/-- Between every two successive values of the node list, the status of the node
at every position makes an allowed move. -/
def StepsAllowed (trace : List (List Node)) : Prop :=
  List.Chain'
    (fun a b => ∀ (i : Nat) (n n' : Node), a.get? i = some n → b.get? i = some n' →
      StatusStep n.data.status n'.data.status)
    trace

/-! ## Properties of the CSV parser -/

theorem rowGet_cons (p : Str × Str) (ps : Row) (k : Str) :
    rowGet (p :: ps) k = if p.1 = k then some p.2 else rowGet ps k := by
  unfold rowGet
  by_cases h : p.1 = k <;> simp [List.find?_cons, h]

theorem rowGet_map_other (row : Row) (k v k' : Str) (hk : k' ≠ k) :
    rowGet (row.map (fun p => if p.1 = k then (k, v) else p)) k' = rowGet row k' := by
  induction row with
  | nil => rfl
  | cons p ps ih =>
    rw [List.map_cons, rowGet_cons, rowGet_cons, ih]
    by_cases hp : p.1 = k
    · have h1 : ¬ k = k' := fun h => hk h.symm
      have h2 : ¬ p.1 = k' := fun h => hk (h.symm.trans hp)
      simp [hp, h1, h2]
    · simp [hp]

theorem rowGet_map_same (row : Row) (k v : Str) (hk : row.any (fun p => p.1 = k) = true) :
    rowGet (row.map (fun p => if p.1 = k then (k, v) else p)) k = some v := by
  induction row with
  | nil => simp at hk
  | cons p ps ih =>
    rw [List.map_cons, rowGet_cons]
    by_cases hp : p.1 = k
    · simp [hp]
    · simp only [hp, if_false]
      apply ih
      simpa [hp] using hk

theorem rowGet_append_new (row : Row) (k v k' : Str)
    (hk : row.any (fun p => p.1 = k) = false) :
    rowGet (row ++ [(k, v)]) k' = if k' = k then some v else rowGet row k' := by
  induction row with
  | nil =>
    rw [List.nil_append, rowGet_cons]
    by_cases h : k = k'
    · simp [h]
    · have : ¬ k' = k := fun e => h e.symm
      simp [h, this, rowGet]
  | cons p ps ih =>
    have hp : ¬ p.1 = k := by
      intro e; simp [e] at hk
    have hps : ps.any (fun p => p.1 = k) = false := by
      simpa [hp] using hk
    rw [List.cons_append, rowGet_cons, rowGet_cons, ih hps]
    by_cases h : p.1 = k'
    · have : ¬ k' = k := fun e => hp (h.trans e)
      simp [h, this]
    · simp [h]

/-- Reading a record after the assignment `row[k] = v`. -/
theorem rowGet_rowSet (row : Row) (k v k' : Str) (hk : k ≠ protoKey) :
    rowGet (rowSet row k v) k' = if k' = k then some v else rowGet row k' := by
  unfold rowSet
  rw [if_neg hk]
  by_cases hany : row.any (fun p => p.1 = k) = true
  · rw [if_pos hany]
    by_cases e : k' = k
    · rw [if_pos e, e]; exact rowGet_map_same row k v hany
    · rw [if_neg e]; exact rowGet_map_other row k v k' e
  · rw [if_neg hany]
    exact rowGet_append_new row k v k' (Bool.eq_false_iff.mpr hany)

theorem rowSet_proto (row : Row) (v : Str) : rowSet row protoKey v = row := by
  simp [rowSet]

theorem mem_rowSet (row : Row) (k v : Str) (p : Str × Str) (hp : p ∈ rowSet row k v) :
    p ∈ row ∨ p = (k, v) := by
  unfold rowSet at hp
  split at hp
  · exact Or.inl hp
  · split at hp
    · rw [List.mem_map] at hp
      obtain ⟨q, hq, rfl⟩ := hp
      by_cases e : q.1 = k
      · right; simp [e]
      · left; simpa [e] using hq
    · rw [List.mem_append, List.mem_singleton] at hp
      exact hp

theorem length_rowSet_le (row : Row) (k v : Str) : (rowSet row k v).length ≤ row.length + 1 := by
  unfold rowSet
  split
  · omega
  · split <;> simp

theorem rowGet_fillRow_not_mem (cols : List Str) (hs : List Str) (idx : Nat) (row : Row)
    (k : Str) (hk : k ∉ hs) : rowGet (fillRow cols idx hs row) k = rowGet row k := by
  induction hs generalizing idx row with
  | nil => rfl
  | cons h hs ih =>
    rw [fillRow, ih _ _ (fun m => hk (List.mem_cons_of_mem _ m))]
    by_cases hp : h = protoKey
    · rw [hp, rowSet_proto]
    · rw [rowGet_rowSet _ _ _ _ hp]
      have : ¬ k = h := fun e => hk (e ▸ List.mem_cons_self _ _)
      rw [if_neg this]

/-- A header name that is not repeated in a later column is mapped to the field
of its own column. -/
theorem rowGet_fillRow (cols : List Str) (hs : List Str) (idx : Nat) (row : Row)
    (j : Nat) (k : Str) (hj : hs.get? j = some k) (hk : k ≠ protoKey)
    (hlast : ∀ j', j < j' → hs.get? j' ≠ some k) :
    rowGet (fillRow cols idx hs row) k = some (cols.getD (idx + j) []) := by
  induction hs generalizing idx row j with
  | nil => simp at hj
  | cons h hs ih =>
    cases j with
    | zero =>
      simp only [List.get?_cons_zero, Option.some.injEq] at hj
      subst hj
      have hnot : h ∉ hs := by
        intro m
        obtain ⟨n, hn⟩ := List.get?_of_mem m
        exact hlast (n + 1) (Nat.succ_pos n) (by simpa using hn)
      rw [fillRow, rowGet_fillRow_not_mem _ _ _ _ _ hnot, rowGet_rowSet _ _ _ _ hk]
      simp
    | succ j =>
      rw [fillRow]
      have := ih (idx + 1) (rowSet row h (cols.getD idx [])) j (by simpa using hj)
        (fun j' hlt => by simpa using hlast (j' + 1) (Nat.succ_lt_succ hlt))
      rw [this]
      congr 2
      omega

theorem mem_fillRow (cols : List Str) (hs : List Str) (idx : Nat) (row : Row)
    (p : Str × Str) (hp : p ∈ fillRow cols idx hs row) :
    p ∈ row ∨ ∃ j, hs.get? j = some p.1 ∧ p.2 = cols.getD (idx + j) [] := by
  induction hs generalizing idx row with
  | nil => exact Or.inl hp
  | cons h hs ih =>
    rw [fillRow] at hp
    rcases ih _ _ hp with h1 | ⟨j, hj, hv⟩
    · rcases mem_rowSet _ _ _ _ h1 with h2 | h2
      · exact Or.inl h2
      · right
        refine ⟨0, ?_, ?_⟩
        · simp [h2]
        · simp [h2]
    · right
      refine ⟨j + 1, by simpa using hj, ?_⟩
      rw [hv]; congr 1; omega

theorem length_fillRow_le (cols : List Str) (hs : List Str) (idx : Nat) (row : Row) :
    (fillRow cols idx hs row).length ≤ row.length + hs.length := by
  induction hs generalizing idx row with
  | nil => simp [fillRow]
  | cons h hs ih =>
    rw [fillRow]
    have h1 := ih (idx + 1) (rowSet row h (cols.getD idx []))
    have h2 := length_rowSet_le row h (cols.getD idx [])
    simp only [List.length_cons]
    omega

theorem length_parseCSV (text : Str) :
    (parseCSV text).length = (nonBlankLines text).length - 1 := by
  unfold parseCSV
  cases nonBlankLines text <;> simp

theorem parseCSV_get? (text : Str) (i : Nat) (line : Str)
    (hl : (nonBlankLines text).get? (i + 1) = some line) :
    (parseCSV text).get? i =
      some (buildRow (splitCSVLine ((nonBlankLines text).headD [])) line) := by
  unfold parseCSV
  cases hnb : nonBlankLines text with
  | nil => simp [hnb] at hl
  | cons header dataLines =>
    rw [hnb] at hl
    simp only [List.get?_cons_succ] at hl
    simp [List.get?_eq_getElem?, List.getElem?_map] at hl ⊢
    simp [hl]

/-- C1, as amended.  `parseCSV` returns one record per non-blank line after the
first non-blank line, in line order (none when there is no non-blank line or only
the header line).  The record of a data line maps a header name other than
`__proto__` that is not repeated in a later column to the field of its own column
of that line, or to the empty string when the line has too few fields; every
entry of the record is a header name with the field (or the empty string) of one
of its columns, so fields beyond the header width are dropped.  The text
`a,b / 1,2 / 3,4` gives the two records `a:1, b:2` and `a:3, b:4`. -/
theorem parseCSV_records (text : Str) :
    (parseCSV text).length = (nonBlankLines text).length - 1 ∧
    (∀ (i : Nat) (line : Str), (nonBlankLines text).get? (i + 1) = some line →
      ∃ row, (parseCSV text).get? i = some row ∧
        (∀ (j : Nat) (h : Str),
          (splitCSVLine ((nonBlankLines text).headD [])).get? j = some h →
          h ≠ protoKey →
          (∀ j', j < j' → (splitCSVLine ((nonBlankLines text).headD [])).get? j' ≠ some h) →
          rowGet row h = some ((splitCSVLine line).getD j [])) ∧
        (∀ p ∈ row, ∃ j,
          (splitCSVLine ((nonBlankLines text).headD [])).get? j = some p.1 ∧
          p.2 = (splitCSVLine line).getD j []) ∧
        row.length ≤ (splitCSVLine ((nonBlankLines text).headD [])).length) ∧
    parseCSV "a,b\n1,2\n3,4".toList =
      [[("a".toList, "1".toList), ("b".toList, "2".toList)],
       [("a".toList, "3".toList), ("b".toList, "4".toList)]] := by
  refine ⟨length_parseCSV text, ?_, by decide⟩
  intro i line hl
  refine ⟨_, parseCSV_get? text i line hl, ?_, ?_, ?_⟩
  · intro j h hj hp hlast
    have := rowGet_fillRow (splitCSVLine line) _ 0 [] j h hj hp hlast
    simpa [buildRow] using this
  · intro p hp
    rcases mem_fillRow (splitCSVLine line) _ 0 [] p hp with h1 | ⟨j, hj, hv⟩
    · simp at h1
    · exact ⟨j, hj, by simpa using hv⟩
  · have := length_fillRow_le (splitCSVLine line)
      (splitCSVLine ((nonBlankLines text).headD [])) 0 []
    simpa [buildRow] using this

/-- C1, as stated, fails: with the header `a,a` and the data line `1,2` the only
record maps `a` to `2`, not to the field `1` of column 0; with the header
`__proto__` the record has no entry at all. -/
theorem parseCSV_repeated_header :
    ¬ RecordsFollowColumns "a,a\n1,2".toList ∧ ¬ RecordsFollowColumns "__proto__\n1".toList := by
  constructor
  · intro h
    have := h 0 0 "1,2".toList [("a".toList, "2".toList)] "a".toList
      (by decide) (by decide) (by decide)
    revert this
    decide
  · intro h
    have := h 0 0 "1".toList [] "__proto__".toList (by decide) (by decide) (by decide)
    revert this
    decide


/-! ### The field splitter -/

theorem splitLoop_plain (prev : Option Char) (inQ : Bool) (cur : Str) (out : List Str)
    (c : Char) (rest : Str) (h1 : c ≠ '"') (h2 : c ≠ ',' ∨ inQ = true) :
    splitLoop prev inQ cur out (c :: rest) = splitLoop (some c) inQ (cur ++ [c]) out rest := by
  rw [splitLoop, if_neg (fun h => h1 h.1), if_neg]
  rintro ⟨hc, hq⟩
  rcases h2 with h2 | h2
  · exact h2 hc
  · rw [h2] at hq; exact Bool.noConfusion hq

theorem splitLoop_quote (prev : Option Char) (inQ : Bool) (cur : Str) (out : List Str)
    (rest : Str) (hprev : prev ≠ some '\\') :
    splitLoop prev inQ cur out ('"' :: rest) = splitLoop (some '"') (!inQ) cur out rest := by
  rw [splitLoop, if_pos ⟨rfl, hprev⟩]

theorem splitLoop_escaped (inQ : Bool) (cur : Str) (out : List Str) (rest : Str) :
    splitLoop (some '\\') inQ cur out ('"' :: rest) =
      splitLoop (some '"') inQ (cur ++ ['"']) out rest := by
  rw [splitLoop, if_neg (fun h => h.2 rfl), if_neg (fun h => absurd h.1 (by decide))]

theorem splitLoop_comma (prev : Option Char) (cur : Str) (out : List Str) (rest : Str) :
    splitLoop prev false cur out (',' :: rest) = splitLoop (some ',') false [] (out ++ [cur]) rest := by
  rw [splitLoop, if_neg (fun h => absurd h.1 (by decide)), if_pos ⟨rfl, rfl⟩]

/-- Inside quotes the loop copies an escaped text without backslash of its own
to `cur`, and the unit before the next one is not a backslash. -/
theorem splitLoop_escapeQuotes (s : Str) (hs : '\\' ∉ s) (prev : Option Char)
    (hprev : prev ≠ some '\\') (cur : Str) (out : List Str) (rest : Str) :
    ∃ prev', prev' ≠ some '\\' ∧
      splitLoop prev true cur out (escapeQuotes s ++ rest) =
        splitLoop prev' true (cur ++ escapeQuotes s) out rest := by
  induction s generalizing prev cur with
  | nil => exact ⟨prev, hprev, by simp [escapeQuotes]⟩
  | cons c s ih =>
    have hc : c ≠ '\\' := fun e => hs (e ▸ List.mem_cons_self _ _)
    have hs' : '\\' ∉ s := fun m => hs (List.mem_cons_of_mem _ m)
    by_cases hq : c = '"'
    · subst hq
      obtain ⟨p, hp, e⟩ := ih hs' (some '"') (by decide) (cur ++ ['\\'] ++ ['"'])
      refine ⟨p, hp, ?_⟩
      rw [escapeQuotes, if_pos rfl, List.cons_append, List.cons_append,
        splitLoop_plain _ _ _ _ _ _ (by decide) (Or.inr rfl), splitLoop_escaped, e]
      simp
    · obtain ⟨p, hp, e⟩ := ih hs' (some c) (by simpa using hc) (cur ++ [c])
      refine ⟨p, hp, ?_⟩
      rw [escapeQuotes, if_neg hq, List.cons_append,
        splitLoop_plain _ _ _ _ _ _ hq (Or.inr rfl), e]
      simp

/-- Outside quotes, a quoted escaped field is read as one piece. -/
theorem splitLoop_quoteField (s : Str) (hs : '\\' ∉ s) (prev : Option Char)
    (hprev : prev ≠ some '\\') (cur : Str) (out : List Str) (rest : Str) :
    splitLoop prev false cur out (quoteField (escapeQuotes s) ++ rest) =
      splitLoop (some '"') false (cur ++ escapeQuotes s) out rest := by
  obtain ⟨p, hp, e⟩ := splitLoop_escapeQuotes s hs (some '"') (by decide) cur out ('"' :: rest)
  rw [quoteField, List.cons_append, splitLoop_quote _ _ _ _ _ hprev, List.append_assoc]
  simp only [Bool.not_false, List.singleton_append]
  rw [e, splitLoop_quote _ _ _ _ _ hp]
  rfl

theorem escapeQuotes_of_not_mem (s : Str) (hs : '"' ∉ s) : escapeQuotes s = s := by
  induction s with
  | nil => rfl
  | cons c s ih =>
    have hc : c ≠ '"' := fun e => hs (e ▸ List.mem_cons_self _ _)
    rw [escapeQuotes, if_neg hc, ih (fun m => hs (List.mem_cons_of_mem _ m))]

theorem unescapeQuotes_cons (c : Char) (s : Str) (hc : c ≠ '\\') :
    unescapeQuotes (c :: s) = c :: unescapeQuotes s := by
  rw [unescapeQuotes]
  intro _ h1 _; exact hc h1

theorem unescapeQuotes_escapeQuotes (s : Str) (hs : '\\' ∉ s) :
    unescapeQuotes (escapeQuotes s) = s := by
  induction s with
  | nil => rfl
  | cons c s ih =>
    have hc : c ≠ '\\' := fun e => hs (e ▸ List.mem_cons_self _ _)
    have hs' : '\\' ∉ s := fun m => hs (List.mem_cons_of_mem _ m)
    by_cases hq : c = '"'
    · subst hq
      rw [escapeQuotes, if_pos rfl, unescapeQuotes, ih hs']
    · rw [escapeQuotes, if_neg hq, unescapeQuotes_cons _ _ hc, ih hs']

theorem dropWhile_of_head (p : Char → Bool) (s : Str)
    (h : ∀ c, s.head? = some c → p c = false) : s.dropWhile p = s := by
  cases s with
  | nil => rfl
  | cons c s => rw [List.dropWhile_cons, h c rfl]; rfl

theorem trim_of_noOuterSpace (s : Str) (h : NoOuterSpace s) : trim s = s := by
  unfold trim
  rw [dropWhile_of_head _ s h.1, dropWhile_of_head _ s.reverse, List.reverse_reverse]
  intro c hc
  rw [List.head?_reverse] at hc
  exact h.2 c hc

theorem getLast?_escapeQuotes (s : Str) : (escapeQuotes s).getLast? = s.getLast? := by
  induction s with
  | nil => rfl
  | cons c s ih =>
    have e : escapeQuotes (c :: s) =
        (if c = '"' then ['\\', '"'] else [c]) ++ escapeQuotes s := by
      rw [escapeQuotes]; split <;> rfl
    rw [e, List.getLast?_append, ih, List.getLast?_cons]
    cases s.getLast? with
    | some d => rfl
    | none =>
      by_cases hq : c = '"'
      · subst hq; rfl
      · simp [hq]

theorem noOuterSpace_escapeQuotes (s : Str) (h : NoOuterSpace s) :
    NoOuterSpace (escapeQuotes s) := by
  refine ⟨?_, ?_⟩
  · intro c hc
    cases s with
    | nil => simp [escapeQuotes] at hc
    | cons d s =>
      rw [escapeQuotes] at hc
      by_cases hq : d = '"'
      · rw [if_pos hq] at hc
        simp only [List.head?_cons, Option.some.injEq] at hc
        subst hc; decide
      · rw [if_neg hq] at hc
        exact h.1 c (by simpa using hc)
  · intro c hc
    rw [getLast?_escapeQuotes] at hc
    exact h.2 c hc

theorem unwrapQuotes_of_not_wrapped (s : Str)
    (h : s.head? = some '"' → s.getLast? = some '"' → s.length ≤ 1) : unwrapQuotes s = s := by
  unfold unwrapQuotes
  split
  · rename_i rest
    split
    · rename_i hc
      exfalso
      have hne : rest ≠ [] := by
        intro e; rw [e] at hc; simp at hc
      obtain ⟨d, ds, rfl⟩ := List.exists_cons_of_ne_nil hne
      have := h rfl (by rw [List.getLast?_cons_cons]; exact hc.1)
      simp at this
    · rfl
  · rfl

theorem unwrapQuotes_of_not_mem (s : Str) (h : '"' ∉ s) : unwrapQuotes s = s := by
  apply unwrapQuotes_of_not_wrapped
  intro hh
  cases s with
  | nil => simp at hh
  | cons c s =>
    simp only [List.head?_cons, Option.some.injEq] at hh
    exact absurd (hh ▸ List.mem_cons_self _ _) h

theorem cleanField_escapeQuotes (s : Str) (hs : '\\' ∉ s) (hsp : NoOuterSpace s) :
    cleanField (escapeQuotes s) = unwrapQuotes s := by
  unfold cleanField
  rw [trim_of_noOuterSpace _ (noOuterSpace_escapeQuotes s hsp), unescapeQuotes_escapeQuotes s hs]

theorem splitCSVLine_quoteField (s : Str) (hs : '\\' ∉ s) (hsp : NoOuterSpace s) :
    splitCSVLine (quoteField (escapeQuotes s)) = [unwrapQuotes s] := by
  have := splitLoop_quoteField s hs none (by simp) [] [] []
  rw [List.append_nil] at this
  unfold splitCSVLine
  rw [this]
  simp [splitLoop, cleanField_escapeQuotes s hs hsp]

theorem quotedLine_cons_cons (f g : Str) (gs : List Str) :
    quotedLine (f :: g :: gs) = quoteField f ++ ',' :: quotedLine (g :: gs) := by
  simp [quotedLine, List.intercalate, List.intersperse]

theorem quotedLine_singleton (f : Str) : quotedLine [f] = quoteField f := by
  simp [quotedLine, List.intercalate, List.intersperse]

theorem splitLoop_quotedLine (fs : List Str) (hne : fs ≠ [])
    (h : ∀ f ∈ fs, '"' ∉ f ∧ '\\' ∉ f) (prev : Option Char) (hprev : prev ≠ some '\\')
    (out : List Str) : splitLoop prev false [] out (quotedLine fs) = out ++ fs := by
  induction fs generalizing prev out with
  | nil => exact absurd rfl hne
  | cons f fs ih =>
    have hf := h f (List.mem_cons_self _ _)
    have key := fun rest => splitLoop_quoteField f hf.2 prev hprev [] out rest
    rw [escapeQuotes_of_not_mem f hf.1] at key
    cases fs with
    | nil =>
      have := key []
      rw [List.append_nil] at this
      rw [quotedLine_singleton, this]
      simp [splitLoop]
    | cons g gs =>
      rw [quotedLine_cons_cons, key, List.nil_append, splitLoop_comma,
        ih (by simp) (fun x hx => h x (List.mem_cons_of_mem _ hx)) (some ',') (by decide)]
      simp

/-- C5.  For every non-empty list of fields without double quote, without
backslash and without leading or trailing white space (commas allowed),
`splitCSVLine` applied to the fields wrapped in double quotes and joined with
commas returns exactly the fields. -/
theorem splitCSVLine_quoted_fields (fs : List Str) (hne : fs ≠ [])
    (h : ∀ f ∈ fs, '"' ∉ f ∧ '\\' ∉ f ∧ NoOuterSpace f) :
    splitCSVLine (quotedLine fs) = fs := by
  unfold splitCSVLine
  rw [splitLoop_quotedLine fs hne (fun f hf => ⟨(h f hf).1, (h f hf).2.1⟩) none (by simp) []]
  rw [List.nil_append]
  conv_rhs => rw [← List.map_id fs]
  apply List.map_congr_left
  intro f hf
  obtain ⟨h1, h2, h3⟩ := h f hf
  have := cleanField_escapeQuotes f h2 h3
  rw [escapeQuotes_of_not_mem f h1, unwrapQuotes_of_not_mem f h1] at this
  simpa using this

/-- Witness of C5: two quoted fields, the first with a comma. -/
theorem splitCSVLine_quoted_fields_witness :
    splitCSVLine (quotedLine ["Jo, Ann".toList, "x".toList]) = ["Jo, Ann".toList, "x".toList] :=
  splitCSVLine_quoted_fields ["Jo, Ann".toList, "x".toList] (by decide) (by decide)

/-- C4, as amended.  For every string without backslash and without leading or
trailing white space that does not both begin and end with a double quote (the
one-character string apart), the line made of the string with each double quote
replaced by backslash-quote, wrapped in one pair of double quotes, is split into
exactly one field equal to the string.  The header `name,note` and the data line
`"Jo, Ann","said \"hi\""` give the one record `name: Jo, Ann`, `note: said "hi"`. -/
theorem splitCSVLine_escaped_round_trip (s : Str) (hs : '\\' ∉ s) (hsp : NoOuterSpace s)
    (hw : s.head? = some '"' → s.getLast? = some '"' → s.length ≤ 1) :
    splitCSVLine (quoteField (escapeQuotes s)) = [s] ∧
    parseCSV "name,note\n\"Jo, Ann\",\"said \\\"hi\\\"\"".toList =
      [[("name".toList, "Jo, Ann".toList), ("note".toList, "said \"hi\"".toList)]] := by
  refine ⟨?_, by decide⟩
  rw [splitCSVLine_quoteField s hs hsp, unwrapQuotes_of_not_wrapped s hw]

/-- Witness of C4 (amended): the string `said "hi"`. -/
theorem splitCSVLine_escaped_round_trip_witness :
    splitCSVLine (quoteField (escapeQuotes "said \"hi\"".toList)) = ["said \"hi\"".toList] :=
  (splitCSVLine_escaped_round_trip "said \"hi\"".toList (by decide) (by decide) (by decide)).1

/-- C4, as stated, fails: the string `"a"` (a letter between two double quotes)
has no backslash, no line break and no outer white space, and its escaped,
quoted line is split into the single field `a`, without the quotes. -/
theorem splitCSVLine_wrapped_field :
    '\\' ∉ "\"a\"".toList ∧ (∀ c ∈ "\"a\"".toList, isLineTerminator c = false) ∧
    NoOuterSpace "\"a\"".toList ∧
    splitCSVLine (quoteField (escapeQuotes "\"a\"".toList)) = ["a".toList] ∧
    splitCSVLine (quoteField (escapeQuotes "\"a\"".toList)) ≠ ["\"a\"".toList] := by
  decide


/-! ## Properties of the history manager -/

theorem undo_snoc (w : World) (hs : List Graph) (a b : Graph)
    (h : w.history = hs ++ [a, b]) :
    undo w = { w with future := b :: w.future, history := hs ++ [a],
                      nodes := a.nodes, edges := a.edges } := by
  unfold undo
  have e : w.history.reverse = b :: a :: hs.reverse := by rw [h]; simp
  have d : w.history.dropLast = hs ++ [a] := by
    rw [h, show hs ++ [a, b] = (hs ++ [a]) ++ [b] by simp, List.dropLast_concat]
  rw [e, d]

theorem redo_cons (w : World) (next : Graph) (rest : List Graph)
    (h : w.future = next :: rest) :
    redo w = { w with history := w.history ++ [snapshot w], future := rest,
                      nodes := next.nodes, edges := next.edges } := by
  unfold redo
  rw [h]

/-- `k` undos move the last `k` entries of the history to the front of `future`
and make the last remaining entry the live graph. -/
theorem undo_iterate (k : Nat) (P Q : List Graph) (w : World)
    (h : w.history = P ++ Q) (hQ : Q.length = k + 1) (hP : P ≠ []) :
    (undo^[k + 1] w).history = P ∧ (undo^[k + 1] w).future = Q ++ w.future ∧
      P.getLast? = some (snapshot (undo^[k + 1] w)) := by
  induction k generalizing Q w with
  | zero =>
    obtain ⟨b, rfl⟩ : ∃ b, Q = [b] := List.length_eq_one.mp hQ
    obtain ⟨hs, a, rfl⟩ : ∃ hs a, P = hs ++ [a] :=
      ⟨P.dropLast, P.getLast hP, (List.dropLast_append_getLast hP).symm⟩
    have := undo_snoc w hs a b (by rw [h]; simp)
    have e1 : undo^[0 + 1] w = undo w := rfl
    rw [e1, this]
    simp [snapshot]
  | succ k ih =>
    have hne : Q ≠ [] := by intro e; rw [e] at hQ; simp at hQ
    obtain ⟨Q', b, rfl⟩ : ∃ Q' b, Q = Q' ++ [b] :=
      ⟨Q.dropLast, Q.getLast hne, (List.dropLast_append_getLast hne).symm⟩
    have hQ' : Q'.length = k + 1 := by simpa using hQ
    have hne' : Q' ≠ [] := by intro e; rw [e] at hQ'; simp at hQ'
    obtain ⟨Q'', a, rfl⟩ : ∃ Q'' a, Q' = Q'' ++ [a] :=
      ⟨Q'.dropLast, Q'.getLast hne', (List.dropLast_append_getLast hne').symm⟩
    have hu := undo_snoc w (P ++ Q'') a b (by rw [h]; simp)
    rw [Function.iterate_succ_apply]
    obtain ⟨h1, h2, h3⟩ := ih (Q'' ++ [a]) (undo w) (by rw [hu]; simp) hQ'
    refine ⟨h1, ?_, h3⟩
    rw [h2, hu]; simp

/-- `k` redos consume the first `k` entries of `future`, and the last of them
becomes the live graph. -/
theorem redo_iterate (k : Nat) (Q r : List Graph) (w : World)
    (h : w.future = Q ++ r) (hQ : Q.length = k + 1) :
    Q.getLast? = some (snapshot (redo^[k + 1] w)) ∧ (redo^[k + 1] w).future = r := by
  induction k generalizing Q w with
  | zero =>
    obtain ⟨n, rfl⟩ : ∃ n, Q = [n] := List.length_eq_one.mp hQ
    have := redo_cons w n r (by rw [h]; simp)
    have e1 : redo^[0 + 1] w = redo w := rfl
    rw [e1, this]
    simp [snapshot]
  | succ k ih =>
    cases Q with
    | nil => simp at hQ
    | cons n Q' =>
      have hQ' : Q'.length = k + 1 := by simpa using hQ
      have hr := redo_cons w n (Q' ++ r) (by rw [h]; simp)
      rw [Function.iterate_succ_apply]
      obtain ⟨h1, h2⟩ := ih Q' (redo w) (by rw [hr]) hQ'
      refine ⟨?_, h2⟩
      rw [← h1]
      cases Q' with
      | nil => simp at hQ'
      | cons m Q'' => simp

/-- Undoing `k` times and redoing `k` times ends on the last entry of the history,
whatever the live graph was. -/
theorem undo_redo_gives_last_commit (w : World) (k : Nat) (h1 : 1 ≤ k)
    (h2 : k < w.history.length) :
    w.history.getLast? = some (snapshot (redo^[k] (undo^[k] w))) := by
  obtain ⟨k, rfl⟩ : ∃ k', k = k' + 1 := ⟨k - 1, by omega⟩
  have hsplit : w.history =
      w.history.take (w.history.length - (k + 1)) ++ w.history.drop (w.history.length - (k + 1)) :=
    (List.take_append_drop _ _).symm
  have hQ : (w.history.drop (w.history.length - (k + 1))).length = k + 1 := by
    rw [List.length_drop]; omega
  have hP : w.history.take (w.history.length - (k + 1)) ≠ [] := by
    intro e
    have := congrArg List.length e
    rw [List.length_take] at this
    simp at this
    omega
  obtain ⟨_, hf, _⟩ := undo_iterate k _ _ w hsplit hQ hP
  obtain ⟨hl, _⟩ := redo_iterate k _ _ (undo^[k + 1] w) hf hQ
  rw [← hl]
  conv_lhs => rw [hsplit]
  rw [List.getLast?_append]
  have hne : w.history.drop (w.history.length - (k + 1)) ≠ [] := by
    intro e; rw [e] at hQ; simp at hQ
  obtain ⟨x, hx⟩ := Option.isSome_iff_exists.mp (List.getLast?_isSome.mpr hne)
  rw [hx]; rfl

theorem addNode_history (c : World) (p : Payload) (pos : Pos) :
    (addNode c p pos).history = c.history ++ [snapshot c] := rfl

theorem addNode_nodes_length (c : World) (p : Payload) (pos : Pos) :
    (addNode c p pos).nodes.length = c.nodes.length + 1 := by
  simp [addNode, pushHistory]

theorem addNodes_concat (w : World) (adds : List (Payload × Pos)) (a : Payload × Pos) :
    addNodes w (adds ++ [a]) = addNode (addNodes w adds) a.1 a.2 := by
  simp [addNodes, List.foldl_append]

theorem addNodes_lengths (w : World) (adds : List (Payload × Pos)) :
    (addNodes w adds).history.length = w.history.length + adds.length ∧
    (addNodes w adds).nodes.length = w.nodes.length + adds.length := by
  induction adds using List.reverseRecOn with
  | nil => simp [addNodes]
  | append_singleton adds a ih =>
    rw [addNodes_concat, addNode_history, addNode_nodes_length]
    simp only [List.length_append, List.length_singleton]
    omega

/-- C2, which the code breaks.  After any `N >= 1` clicks on the toolbar (each an
`addNode`, which mutates and commits), `k` undos followed by `k` redos with
`1 <= k <= N` never give back the live graph of before the first undo: they end
on the last history entry, which lacks the node added last. -/
theorem undo_redo_never_round_trips (adds : List (Payload × Pos)) (k : Nat)
    (h1 : 1 ≤ k) (h2 : k ≤ adds.length) : ¬ UndoRedoRoundTrip adds k := by
  have hne : adds ≠ [] := by intro e; rw [e] at h2; simp at h2; omega
  obtain ⟨adds', a, rfl⟩ : ∃ adds' a, adds = adds' ++ [a] :=
    ⟨adds.dropLast, adds.getLast hne, (List.dropLast_append_getLast hne).symm⟩
  intro hrt
  unfold UndoRedoRoundTrip at hrt
  have hlen := addNodes_lengths initialWorld (adds' ++ [a])
  have hk : k < (addNodes initialWorld (adds' ++ [a])).history.length := by
    rw [hlen.1]; simp [initialWorld] at h2 ⊢; omega
  have hlast := undo_redo_gives_last_commit _ k h1 hk
  rw [hrt] at hlast
  rw [addNodes_concat, addNode_history] at hlast
  simp only [List.getLast?_append, List.getLast?_singleton, Option.or_some,
    Option.some.injEq] at hlast
  have := congrArg (fun g => g.nodes.length) hlast
  simp only [snapshot, addNode_nodes_length] at this
  omega

/-- Witness of C2: one click on the toolbar item `Start`, then one undo and one
redo.  The live graph held the node `node_1` before the undo and is empty after
the redo. -/
theorem undo_redo_loses_added_node :
    (snapshot oneNodeWorld).nodes.map (fun n => n.id) = ["node_1".toList] ∧
    snapshot (redo (undo oneNodeWorld)) = ⟨[], []⟩ ∧
    ¬ UndoRedoRoundTrip [(startItem, ⟨120, 100⟩)] 1 :=
  ⟨by decide, by decide,
    undo_redo_never_round_trips [(startItem, ⟨120, 100⟩)] 1 (by decide) (by decide)⟩

/-- What `undo` does when the history has more than one entry: the last entry
of the history becomes the head of `future`, the history loses it, and the live
graph becomes the new last entry. -/
theorem undo_of_two_entries (w : World) (h : 1 < w.history.length) :
    (undo w).future.head? = w.history.getLast? ∧
    (undo w).future.tail = w.future ∧
    (undo w).history = w.history.dropLast ∧
    (undo w).history.getLast? = some (snapshot (undo w)) := by
  have hne : w.history ≠ [] := by intro e; rw [e] at h; simp at h
  obtain ⟨hs', b, e1⟩ : ∃ hs' b, w.history = hs' ++ [b] :=
    ⟨_, _, (List.dropLast_append_getLast hne).symm⟩
  have hne' : hs' ≠ [] := by intro e; rw [e1, e] at h; simp at h
  obtain ⟨hs, a, e2⟩ : ∃ hs a, hs' = hs ++ [a] :=
    ⟨_, _, (List.dropLast_append_getLast hne').symm⟩
  have e : w.history = hs ++ [a, b] := by rw [e1, e2]; simp
  rw [undo_snoc w hs a b e, e]
  refine ⟨by simp, rfl, ?_, by simp [snapshot]⟩
  rw [show hs ++ [a, b] = (hs ++ [a]) ++ [b] by simp, List.dropLast_concat]

/-- C3 at the failing input.  After one click on the toolbar item `Start` the
history has two entries and the live graph holds `node_1`; `undo` then puts the
empty graph, not a snapshot of the live graph, at the head of `future`, while it
does drop the last history entry and restore the new last one. -/
theorem undo_future_head_is_not_live :
    oneNodeWorld.history.length = 2 ∧
    (snapshot oneNodeWorld).nodes.map (fun n => n.id) = ["node_1".toList] ∧
    (undo oneNodeWorld).future.head? = some ⟨[], []⟩ ∧
    (undo oneNodeWorld).future.head? ≠ some (snapshot oneNodeWorld) ∧
    (undo oneNodeWorld).history = oneNodeWorld.history.dropLast ∧
    (undo oneNodeWorld).history.getLast? = some (snapshot (undo oneNodeWorld)) := by
  decide

theorem mem_selected_ids_iff (nodes : List Node)
    (hn : (nodes.map (fun n => n.id)).Nodup) (n : Node) (hmem : n ∈ nodes) :
    n.id ∈ (nodes.filter (fun n => n.selected)).map (fun n => n.id) ↔ n.selected = true := by
  constructor
  · intro h
    obtain ⟨m, hm, e⟩ := List.mem_map.mp h
    rw [List.mem_filter] at hm
    have := List.inj_on_of_nodup_map hn hm.1 hmem e
    rw [← this]; exact hm.2
  · intro h
    exact List.mem_map.mpr ⟨n, List.mem_filter.mpr ⟨hmem, h⟩, rfl⟩

theorem mem_selected_edge_ids_iff (edges : List Edge)
    (he : (edges.map (fun e => e.id)).Nodup) (e : Edge) (hmem : e ∈ edges) :
    e.id ∈ (edges.filter (fun e => e.selected)).map (fun e => e.id) ↔ e.selected = true := by
  constructor
  · intro h
    obtain ⟨m, hm, eq⟩ := List.mem_map.mp h
    rw [List.mem_filter] at hm
    have := List.inj_on_of_nodup_map he hm.1 hmem eq
    rw [← this]; exact hm.2
  · intro h
    exact List.mem_map.mpr ⟨e, List.mem_filter.mpr ⟨hmem, h⟩, rfl⟩

theorem mem_selected_ids_iff_any (nodes : List Node) (x : Str) :
    x ∈ (nodes.filter (fun n => n.selected)).map (fun n => n.id) ↔
      nodes.any (fun n => n.selected && n.id == x) = true := by
  simp only [List.mem_map, List.mem_filter, List.any_eq_true, Bool.and_eq_true, beq_iff_eq]
  constructor
  · rintro ⟨n, ⟨h1, h2⟩, h3⟩; exact ⟨n, h1, h2, h3⟩
  · rintro ⟨n, h1, h2, h3⟩; exact ⟨n, ⟨h1, h2⟩, h3⟩

theorem any_and_or {α : Type} (l : List α) (p q r : α → Bool) :
    l.any (fun n => p n && (q n || r n)) =
      (l.any (fun n => p n && q n) || l.any (fun n => p n && r n)) := by
  induction l with
  | nil => rfl
  | cons a l ih =>
    simp only [List.any_cons, ih]
    cases p a <;> cases q a <;> cases r a <;> simp

/-- C7.  In a graph store whose node identifiers are pairwise distinct and whose
edge identifiers are pairwise distinct, `deleteSelected` changes nothing and
commits nothing when no node and no edge is selected; otherwise it removes
exactly the selected nodes and exactly the edges that are selected or whose
source or target is the identifier of a selected node, keeps every other node
and edge unchanged and in order, appends one entry (the graph before the
deletion) to the history and empties `future`. -/
theorem deleteSelected_removes_selection (c : World)
    (hn : (c.nodes.map (fun n => n.id)).Nodup) (he : (c.edges.map (fun e => e.id)).Nodup) :
    (((∀ n ∈ c.nodes, n.selected = false) ∧ (∀ e ∈ c.edges, e.selected = false)) →
      deleteSelected c = c) ∧
    (¬ ((∀ n ∈ c.nodes, n.selected = false) ∧ (∀ e ∈ c.edges, e.selected = false)) →
      (deleteSelected c).nodes = c.nodes.filter (fun n => !n.selected) ∧
      (deleteSelected c).edges = c.edges.filter (fun e =>
        !e.selected && !c.nodes.any (fun n => n.selected && (n.id == e.source || n.id == e.target))) ∧
      (deleteSelected c).history = c.history ++ [snapshot c] ∧
      (deleteSelected c).history.length = c.history.length + 1 ∧
      (deleteSelected c).future = [] ∧
      (deleteSelected c).log = c.log ∧ (deleteSelected c).runtime = c.runtime) := by
  have hsel : ((∀ n ∈ c.nodes, n.selected = false) ∧ (∀ e ∈ c.edges, e.selected = false)) ↔
      ((c.nodes.filter (fun n => n.selected)).map (fun n => n.id) = [] ∧
        (c.edges.filter (fun e => e.selected)).map (fun e => e.id) = []) := by
    simp [List.filter_eq_nil_iff]
  constructor
  · intro h
    unfold deleteSelected
    simp only
    rw [if_pos (hsel.mp h)]
  · intro h
    have h' := fun x => h (hsel.mpr x)
    unfold deleteSelected
    simp only
    rw [if_neg h']
    refine ⟨?_, ?_, rfl, by simp [pushHistory], rfl, rfl, rfl⟩
    · apply List.filter_congr
      intro n hmem
      have := mem_selected_ids_iff c.nodes hn n hmem
      by_cases hs : n.selected = true
      · simp [this, hs]
      · simp [this, hs]
    · simp only [List.filter_filter]
      apply List.filter_congr
      intro e hmem
      have h1 := mem_selected_edge_ids_iff c.edges he e hmem
      have h2 := mem_selected_ids_iff_any c.nodes e.source
      have h3 := mem_selected_ids_iff_any c.nodes e.target
      have h4 : c.nodes.any (fun n => n.selected && (n.id == e.source || n.id == e.target)) =
          (c.nodes.any (fun n => n.selected && n.id == e.source) ||
            c.nodes.any (fun n => n.selected && n.id == e.target)) := by
        exact any_and_or c.nodes _ _ _
      rw [h4]
      by_cases a1 : e.selected = true <;>
      by_cases a2 : c.nodes.any (fun n => n.selected && n.id == e.source) = true <;>
      by_cases a3 : c.nodes.any (fun n => n.selected && n.id == e.target) = true <;>
      simp [h1, h2, h3, a1, a2, a3]

/-- Witness of C7: deleting the selected node `n1` of `twoNodeWorld` leaves the
node `n2` and the edge `e2` and commits once. -/
theorem deleteSelected_removes_selection_witness :
    (deleteSelected twoNodeWorld).nodes.map (fun n => n.id) = ["n2".toList] ∧
    (deleteSelected twoNodeWorld).edges.map (fun e => e.id) = ["e2".toList] ∧
    (deleteSelected twoNodeWorld).history.length = twoNodeWorld.history.length + 1 ∧
    (deleteSelected twoNodeWorld).future = [] := by
  have h := (deleteSelected_removes_selection twoNodeWorld (by decide) (by decide)).2 (by decide)
  refine ⟨?_, ?_, h.2.2.2.1, h.2.2.2.2.1⟩
  · rw [h.1]; decide
  · rw [h.2.1]; decide


/-! ## Properties of the execution engine -/

theorem statuses_setNodeStatus (nodes : List Node) (nodeId : Str) (st : Status) :
    (setNodeStatus nodes nodeId st).map (fun n => n.data.status) =
      nodes.map (fun n => if n.id = nodeId then st else n.data.status) := by
  unfold setNodeStatus
  rw [List.map_map]
  apply List.map_congr_left
  intro n _
  by_cases h : n.id = nodeId <;> simp [h]

theorem statuses_patchNodeConfig (nodes : List Node) (nodeId : Str) (patch : Config) :
    (patchNodeConfig nodes nodeId patch).map (fun n => n.data.status) =
      nodes.map (fun n => n.data.status) := by
  unfold patchNodeConfig
  rw [List.map_map]
  apply List.map_congr_left
  intro n _
  by_cases h : n.id = nodeId <;> simp [h]

theorem ids_setNodeStatus (nodes : List Node) (nodeId : Str) (st : Status) :
    (setNodeStatus nodes nodeId st).map (fun n => n.id) = nodes.map (fun n => n.id) := by
  unfold setNodeStatus
  rw [List.map_map]
  apply List.map_congr_left
  intro n _
  by_cases h : n.id = nodeId <;> simp [h]

theorem ids_patchNodeConfig (nodes : List Node) (nodeId : Str) (patch : Config) :
    (patchNodeConfig nodes nodeId patch).map (fun n => n.id) = nodes.map (fun n => n.id) := by
  unfold patchNodeConfig
  rw [List.map_map]
  apply List.map_congr_left
  intro n _
  by_cases h : n.id = nodeId <;> simp [h]

/-- The nodes of a run: when the node is found, the final node list is the list
marked as running, then settled, then patched. -/
theorem runNode_nodes (env : Env) (c : Graph) (w : World) (nodeId : Str)
    (op : Option Str) (node : Node) (h : findNode c.nodes nodeId = some node) :
    (runNode env c w nodeId op).2.nodes =
      patchNodeConfig
        (setNodeStatus (runNodeEnter w nodeId) nodeId
          (if (runNode env c w nodeId op).1.ok then Status.success else Status.error))
        nodeId (resultPatch (runNode env c w nodeId op).1) := by
  unfold runNode
  rw [h]

theorem runNode_not_found (env : Env) (c : Graph) (w : World) (nodeId : Str)
    (op : Option Str) (h : findNode c.nodes nodeId = none) :
    runNode env c w nodeId op = (⟨false, "Node not found.".toList, none⟩, w) := by
  unfold runNode
  rw [h]

/-- The statuses at the end of a run, of an upload and of a configuration update:
the node of the run has the status of its result, the node of the upload has the
status success, and every other status is as before. -/
theorem statuses_after_handlers (env : Env) (c : Graph) (w : World) (nodeId : Str)
    (op : Option Str) (ts : Str) (file : UploadFile) (patch : Config) :
    (∀ node, findNode c.nodes nodeId = some node →
      (runNodeEnter w nodeId).map (fun n => n.data.status) =
        w.nodes.map (fun n => if n.id = nodeId then Status.running else n.data.status) ∧
      (runNode env c w nodeId op).2.nodes =
        patchNodeConfig
          (setNodeStatus (runNodeEnter w nodeId) nodeId
            (if (runNode env c w nodeId op).1.ok then Status.success else Status.error))
          nodeId (resultPatch (runNode env c w nodeId op).1) ∧
      (runNode env c w nodeId op).2.nodes.map (fun n => n.data.status) =
        w.nodes.map (fun n =>
          if n.id = nodeId then
            (if (runNode env c w nodeId op).1.ok then Status.success else Status.error)
          else n.data.status)) ∧
    (findNode c.nodes nodeId = none → (runNode env c w nodeId op).2 = w) ∧
    (onUpload ts w nodeId file).nodes.map (fun n => n.data.status) =
      w.nodes.map (fun n => if n.id = nodeId then Status.success else n.data.status) ∧
    (onUpdateConfig w nodeId patch).nodes.map (fun n => n.data.status) =
      w.nodes.map (fun n => n.data.status) := by
  refine ⟨?_, ?_, ?_, ?_⟩
  · intro node h
    refine ⟨statuses_setNodeStatus _ _ _, runNode_nodes env c w nodeId op node h, ?_⟩
    rw [runNode_nodes env c w nodeId op node h, statuses_patchNodeConfig,
      statuses_setNodeStatus, runNodeEnter]
    unfold setNodeStatus
    rw [List.map_map]
    apply List.map_congr_left
    intro n _
    by_cases hn : n.id = nodeId <;> simp [hn]
  · intro h
    rw [runNode_not_found env c w nodeId op h]
  · simp only [onUpload]
    rw [statuses_setNodeStatus]
    unfold patchNodeConfig
    rw [List.map_map]
    apply List.map_congr_left
    intro n _
    by_cases hn : n.id = nodeId <;> simp [hn]
  · simp only [onUpdateConfig]
    exact statuses_patchNodeConfig _ _ _

/-- C8, as stated, fails: on the canvas with the single idle node `node_1` of kind
upload, the upload handler takes the status of `node_1` from idle directly to
success. -/
theorem upload_marks_idle_node_success :
    statusesOf uploadWorld.nodes "node_1".toList = [Status.idle] ∧
    statusesOf (onUpload "10:00:00".toList uploadWorld "node_1".toList sampleFile).nodes
      "node_1".toList = [Status.success] ∧
    ¬ UploadKeepsIdle "10:00:00".toList uploadWorld "node_1".toList sampleFile := by
  decide

theorem filter_setNodeStatus_other (nodes : List Node) (nodeId b : Str) (st : Status)
    (hb : b ≠ nodeId) :
    (setNodeStatus nodes nodeId st).filter (fun n => n.id = b) =
      nodes.filter (fun n => n.id = b) := by
  induction nodes with
  | nil => rfl
  | cons n ns ih =>
    unfold setNodeStatus at ih ⊢
    rw [List.map_cons]
    by_cases h : n.id = nodeId
    · have hnb : ¬ n.id = b := fun e => hb (e.symm.trans h)
      rw [if_pos h, List.filter_cons_of_neg (by simpa using hnb),
        List.filter_cons_of_neg (by simpa using hnb), ih]
    · rw [if_neg h]
      by_cases hnb : n.id = b
      · rw [List.filter_cons_of_pos (by simpa using hnb),
          List.filter_cons_of_pos (by simpa using hnb), ih]
      · rw [List.filter_cons_of_neg (by simpa using hnb),
          List.filter_cons_of_neg (by simpa using hnb), ih]

theorem filter_patchNodeConfig_other (nodes : List Node) (nodeId b : Str) (patch : Config)
    (hb : b ≠ nodeId) :
    (patchNodeConfig nodes nodeId patch).filter (fun n => n.id = b) =
      nodes.filter (fun n => n.id = b) := by
  induction nodes with
  | nil => rfl
  | cons n ns ih =>
    unfold patchNodeConfig at ih ⊢
    rw [List.map_cons]
    by_cases h : n.id = nodeId
    · have hnb : ¬ n.id = b := fun e => hb (e.symm.trans h)
      rw [if_pos h, List.filter_cons_of_neg (by simpa using hnb),
        List.filter_cons_of_neg (by simpa using hnb), ih]
    · rw [if_neg h]
      by_cases hnb : n.id = b
      · rw [List.filter_cons_of_pos (by simpa using hnb),
          List.filter_cons_of_pos (by simpa using hnb), ih]
      · rw [List.filter_cons_of_neg (by simpa using hnb),
          List.filter_cons_of_neg (by simpa using hnb), ih]

/-- A run changes no node with another identifier. -/
theorem runNode_other (env : Env) (c : Graph) (w : World) (nodeId b : Str)
    (op : Option Str) (hb : b ≠ nodeId) :
    (runNode env c w nodeId op).2.nodes.filter (fun n => n.id = b) =
      w.nodes.filter (fun n => n.id = b) := by
  cases h : findNode c.nodes nodeId with
  | none => rw [runNode_not_found env c w nodeId op h]
  | some node =>
    rw [runNode_nodes env c w nodeId op node h, filter_patchNodeConfig_other _ _ _ _ hb,
      filter_setNodeStatus_other _ _ _ _ hb, runNodeEnter, filter_setNodeStatus_other _ _ _ _ hb]

/-- A run of an existing node appends one line to the log. -/
theorem runNode_log (env : Env) (c : Graph) (w : World) (nodeId : Str)
    (op : Option Str) (node : Node) (h : findNode c.nodes nodeId = some node) :
    (runNode env c w nodeId op).2.log =
      pushLog env.now
        ((if node.data.label = [] then nodeId else node.data.label) ++ ": ".toList ++
          (runNode env c w nodeId op).1.msg) w.log := by
  unfold runNode
  rw [h]

/-- The result of a run of an existing node is the settled outcome of the runner
of its kind. -/
theorem runNode_result (env : Env) (c : Graph) (w : World) (nodeId : Str)
    (op : Option Str) (node : Node) (h : findNode c.nodes nodeId = some node) :
    (runNode env c w nodeId op).1 =
      (settle w.runtime (dispatch env c.nodes w.runtime
        (if node.data.kind = [] then "generic".toList else node.data.kind) nodeId op)).1 := by
  unfold runNode
  rw [h]

/-- A node of kind start runs with the result of `runStart`. -/
theorem runNode_start (env : Env) (c : Graph) (w : World) (nodeId : Str)
    (op : Option Str) (node : Node) (h : findNode c.nodes nodeId = some node)
    (hk : node.data.kind = "start".toList) :
    (runNode env c w nodeId op).1 = runStart := by
  have e : (if ("start".toList : Str) = [] then "generic".toList else "start".toList) =
      "start".toList := by decide
  rw [runNode_result env c w nodeId op node h, hk, e]
  unfold dispatch
  rw [if_pos rfl]
  rfl

theorem findNode_eq_head_filter (nodes : List Node) (b : Str) :
    findNode nodes b = (nodes.filter (fun n => n.id = b)).head? := by
  unfold findNode
  induction nodes with
  | nil => rfl
  | cons n ns ih =>
    by_cases h : n.id = b
    · rw [List.find?_cons_of_pos _ (by simpa using h), List.filter_cons_of_pos (by simpa using h)]
      rfl
    · rw [List.find?_cons_of_neg _ (by simpa using h), List.filter_cons_of_neg (by simpa using h)]
      exact ih

theorem runNodeAndNext_succ (envs : Nat → Env) (c : Graph) (fuel step : Nat) (w : World)
    (nodeId : Str) :
    runNodeAndNext envs c (fuel + 1) step w nodeId =
      if (runNode (envs step) c w nodeId none).1.ok = false then
        some (runNode (envs step) c w nodeId none).2
      else
        match getOutgoing c.edges nodeId with
        | [] => some (runNode (envs step) c w nodeId none).2
        | next :: _ =>
          runNodeAndNext envs c fuel (step + 1) (runNode (envs step) c w nodeId none).2 next := by
  rw [runNodeAndNext]

/-- C6.  In a graph where the first outgoing edge of a start node `s` leads to a
node `a` whose run fails, and the first outgoing edge of `a` leads to a third
node `b`, `runNodeAndNext(s)` returns (two runs suffice), its effect is exactly
the run of `s` followed by the run of `a`, every node called `b` is as before
(status, configuration and all), and the log is the log before with the line of
`s` and then the line of `a` pushed, nothing after. -/
theorem chain_stops_at_first_failure (envs : Nat → Env) (w : World) (s a b : Str)
    (nodeS nodeA : Node) (fuel : Nat)
    (hS : findNode w.nodes s = some nodeS) (hkind : nodeS.data.kind = "start".toList)
    (hsa : (getOutgoing w.edges s).head? = some a)
    (hA : findNode w.nodes a = some nodeA)
    (hfail : (runNode (envs 1) (snapshot w)
      (runNode (envs 0) (snapshot w) w s none).2 a none).1.ok = false)
    (_hab : (getOutgoing w.edges a).head? = some b)
    (hbs : b ≠ s) (hba : b ≠ a) :
    runNodeAndNext envs (snapshot w) (fuel + 2) 0 w s =
      some (runNode (envs 1) (snapshot w) (runNode (envs 0) (snapshot w) w s none).2 a none).2 ∧
    (∀ w', runNodeAndNext envs (snapshot w) (fuel + 2) 0 w s = some w' →
      w'.nodes.filter (fun n => n.id = b) = w.nodes.filter (fun n => n.id = b) ∧
      findNode w'.nodes b = findNode w.nodes b ∧
      w'.log =
        pushLog (envs 1).now
          ((if nodeA.data.label = [] then a else nodeA.data.label) ++ ": ".toList ++
            (runNode (envs 1) (snapshot w)
              (runNode (envs 0) (snapshot w) w s none).2 a none).1.msg)
          (pushLog (envs 0).now
            ((if nodeS.data.label = [] then s else nodeS.data.label) ++ ": ".toList ++
              "Start".toList) w.log)) := by
  have hok : (runNode (envs 0) (snapshot w) w s none).1.ok = true := by
    rw [runNode_start (envs 0) (snapshot w) w s none nodeS hS hkind]; rfl
  have hmsg : (runNode (envs 0) (snapshot w) w s none).1.msg = "Start".toList := by
    rw [runNode_start (envs 0) (snapshot w) w s none nodeS hS hkind]; rfl
  obtain ⟨tl, htl⟩ : ∃ tl, getOutgoing w.edges s = a :: tl := by
    cases hg : getOutgoing w.edges s with
    | nil => rw [hg] at hsa; simp at hsa
    | cons x tl =>
      rw [hg] at hsa
      simp only [List.head?_cons, Option.some.injEq] at hsa
      exact ⟨tl, by rw [hsa]⟩
  have hrun : runNodeAndNext envs (snapshot w) (fuel + 2) 0 w s =
      some (runNode (envs 1) (snapshot w)
        (runNode (envs 0) (snapshot w) w s none).2 a none).2 := by
    have hedges : getOutgoing (snapshot w).edges s = a :: tl := htl
    rw [runNodeAndNext_succ, if_neg (by rw [hok]; simp), hedges]
    simp only
    rw [runNodeAndNext_succ, if_pos hfail]
  refine ⟨hrun, ?_⟩
  intro w' hw'
  rw [hrun] at hw'
  simp only [Option.some.injEq] at hw'
  subst hw'
  have hfilter : (runNode (envs 1) (snapshot w)
      (runNode (envs 0) (snapshot w) w s none).2 a none).2.nodes.filter (fun n => n.id = b) =
      w.nodes.filter (fun n => n.id = b) := by
    rw [runNode_other _ _ _ _ _ _ hba, runNode_other _ _ _ _ _ _ hbs]
  refine ⟨hfilter, ?_, ?_⟩
  · rw [findNode_eq_head_filter, findNode_eq_head_filter, hfilter]
  · rw [runNode_log (envs 1) (snapshot w) _ a none nodeA hA,
      runNode_log (envs 0) (snapshot w) w s none nodeS hS, hmsg]

/-- Witness of C6: on `chainWorld`, without CSV, the script node `a` fails, the
check node `b` keeps its idle status, and the log has the two lines of `s` and
`a`. -/
theorem chain_stops_at_first_failure_witness :
    (runNodeAndNext (fun _ => offlineEnv) (snapshot chainWorld) 2 0 chainWorld "s".toList).isSome ∧
    ∀ w', runNodeAndNext (fun _ => offlineEnv) (snapshot chainWorld) 2 0 chainWorld "s".toList =
        some w' →
      statusesOf w'.nodes "b".toList = [Status.idle] ∧ w'.log.length = 2 := by
  have h := chain_stops_at_first_failure (fun _ => offlineEnv) chainWorld
    "s".toList "a".toList "b".toList chainStart chainScript 0 (by decide)
    (by decide) (by decide) (by decide) (by decide) (by decide) (by decide) (by decide)
  refine ⟨by rw [h.1]; rfl, ?_⟩
  intro w' hw'
  obtain ⟨h1, _, h3⟩ := h.2 w' hw'
  refine ⟨?_, ?_⟩
  · unfold statusesOf; rw [h1]; decide
  · rw [h3]; decide


/-! ## Properties of the runners -/

theorem rowGet_eq_none (r : Row) (k : Str) (h : k ∉ rowKeys r) : rowGet r k = none := by
  induction r with
  | nil => rfl
  | cons p ps ih =>
    rw [rowGet_cons]
    have h1 : ¬ p.1 = k := fun e => h (by simp [rowKeys, ← e])
    have h2 : k ∉ rowKeys ps := fun m => h (by
      simp only [rowKeys, List.map_cons, List.mem_cons]; exact Or.inr m)
    rw [if_neg h1, ih h2]

theorem dedup_of_all_eq {α : Type} [DecidableEq α] (a : α) (l : List α) (hne : l ≠ [])
    (h : ∀ x ∈ l, x = a) : l.dedup = [a] := by
  induction l with
  | nil => exact absurd rfl hne
  | cons x xs ih =>
    have hx : x = a := h x (List.mem_cons_self _ _)
    subst hx
    cases hxs : xs with
    | nil => simp
    | cons y ys =>
      have hmem : x ∈ xs := by
        have : y = x := h y (by rw [hxs]; simp)
        rw [hxs, this]; exact List.mem_cons_self _ _
      rw [← hxs, List.dedup_cons_of_mem hmem]
      exact ih (by rw [hxs]; simp) (fun z hz => h z (List.mem_cons_of_mem _ hz))

theorem uniqueKey_fallback (csv : List Row)
    (h : ∀ k ∈ ["user".toList, "username".toList, "email".toList, "id".toList],
      k ∉ rowKeys (csv.headD [])) :
    uniqueKey csv = JAtom.strs ((List.range csv.length).map natStr) := by
  unfold uniqueKey
  have : ["user".toList, "username".toList, "email".toList, "id".toList].find?
      (fun k => decide (k ∈ rowKeys (csv.headD []))) = none := by
    rw [List.find?_eq_none]
    intro k hk
    simpa using h k hk
  rw [this]

theorem runAnalysis_unique_users (rt : Runtime) (csv : List Row) (hcsv : rt.csv = some csv)
    (hne : csv ≠ []) :
    runAnalysis rt (some "unique_users".toList) =
      (⟨true, "Unique by ".toList ++ jsString (JVal.atom (uniqueKey csv)) ++ ": ".toList ++
          natStr (uniqueCount csv (uniqueKey csv)),
        some (uniqueData (uniqueKey csv) (uniqueCount csv (uniqueKey csv)))⟩,
       { rt with
         lastAnalysis := some (uniqueData (uniqueKey csv) (uniqueCount csv (uniqueKey csv))) }) := by
  have hlen : ¬ csv.length = 0 := by
    intro e; exact hne (List.length_eq_zero.mp e)
  have e1 : (if ("unique_users".toList : Str) = [] then "row_count".toList
      else "unique_users".toList) = "unique_users".toList := by decide
  have e2 : ¬ ("unique_users".toList : Str) = "row_count".toList := by decide
  unfold runAnalysis
  simp only [hcsv, Option.getD_some]
  rw [if_neg hlen, e1, if_neg e2, if_pos rfl]
  rfl

/-- C9, as amended.  For every non-empty row sequence in the runtime store whose
first row has none of the keys user, username, email, id, the analysis runner
with op unique_users succeeds; its `key` is the array of the row indices and its
unique count is the number of distinct values, over the rows, of the property
named by these indices joined with commas, which is 1 when no row has a header of
that name. -/
theorem unique_users_fallback (rt : Runtime) (csv : List Row) (hcsv : rt.csv = some csv)
    (hne : csv ≠ [])
    (hkeys : ∀ k ∈ ["user".toList, "username".toList, "email".toList, "id".toList],
      k ∉ rowKeys (csv.headD [])) :
    (runAnalysis rt (some "unique_users".toList)).1.ok = true ∧
    (runAnalysis rt (some "unique_users".toList)).1.data =
      some (uniqueData (JAtom.strs ((List.range csv.length).map natStr))
        ((csv.map (fun r => rowGet r (indexKey csv))).dedup).length) ∧
    (runAnalysis rt (some "unique_users".toList)).2.lastAnalysis =
      (runAnalysis rt (some "unique_users".toList)).1.data ∧
    ((∀ r ∈ csv, indexKey csv ∉ rowKeys r) →
      ((csv.map (fun r => rowGet r (indexKey csv))).dedup).length = 1) := by
  rw [runAnalysis_unique_users rt csv hcsv hne, uniqueKey_fallback csv hkeys]
  refine ⟨rfl, rfl, rfl, ?_⟩
  intro hno
  rw [dedup_of_all_eq none _ (by simpa using hne)]
  · rfl
  · intro x hx
    obtain ⟨r, hr, rfl⟩ := List.mem_map.mp hx
    exact rowGet_eq_none r _ (hno r hr)

/-- Witness of C9 (amended): the rows of the CSV text `a,b / 1,2`. -/
theorem unique_users_fallback_witness :
    (runAnalysis abStore (some "unique_users".toList)).1.data =
      some (uniqueData (JAtom.strs ["0".toList]) 1) := by
  have h := unique_users_fallback abStore (parseCSV "a,b\n1,2".toList) rfl (by decide) (by decide)
  rw [h.2.1]
  decide

/-- C9, as stated, fails: for the single row of the CSV text `a,b / 1,2`, which
has two header names and none of the four user keys, the runner succeeds and
reports the unique count 1. -/
theorem unique_users_is_not_header_count :
    abStore.csv = some [[("a".toList, "1".toList), ("b".toList, "2".toList)]] ∧
    (runAnalysis abStore (some "unique_users".toList)).1.ok = true ∧
    (runAnalysis abStore (some "unique_users".toList)).1.data =
      some (uniqueData (JAtom.strs ["0".toList]) 1) ∧
    headerCount (abStore.csv.getD []) = 2 := by
  decide

theorem find?_first {α : Type} (p : α → Bool) (pre post : List α) (key : α)
    (hpre : ∀ k ∈ pre, p k = false) (hkey : p key = true) :
    (pre ++ key :: post).find? p = some key := by
  induction pre with
  | nil => rw [List.nil_append, List.find?_cons_of_pos _ hkey]
  | cons a pre ih =>
    rw [List.cons_append, List.find?_cons_of_neg _ (by simp [hpre a (List.mem_cons_self _ _)])]
    exact ih (fun k hk => hpre k (List.mem_cons_of_mem _ hk))

theorem runCheck_of_key (rt : Runtime) (first : Row) (rest : List Row)
    (hcsv : rt.csv = some (first :: rest)) (key : Str)
    (hfind : managerKeys.find? (fun k => decide (k ∈ rowKeys first)) = some key) :
    runCheck rt = checkResult (trimmedNoManagerCount (first :: rest) key) := by
  unfold runCheck
  simp only [hcsv, Option.getD_some]
  rw [if_neg (by simp)]
  unfold findNoManager
  simp only [hfind]
  unfold checkResult trimmedNoManagerCount
  rw [List.countP_eq_length_filter]
  rfl

theorem runCheck_of_no_key (rt : Runtime) (first : Row) (rest : List Row)
    (hcsv : rt.csv = some (first :: rest))
    (hfind : managerKeys.find? (fun k => decide (k ∈ rowKeys first)) = none) :
    runCheck rt = checkResult 0 := by
  unfold runCheck
  simp only [hcsv, Option.getD_some]
  rw [if_neg (by simp)]
  unfold findNoManager
  simp only [hfind]
  rfl

/-- C10, as amended.  For every non-empty row sequence in the runtime store the
check runner returns ok with `noManager` equal to the number of rows whose value
in the manager column, taken as empty when the row has none and with surrounding
white space removed, is the empty string, `null` or `undefined`; the manager
column is the first of manager, manager_id, manager_email, managerName, managerId
among the columns of the first row, and without such a column `noManager` is 0.
A manager column where 2 of 5 rows are empty or `null` gives 2. -/
theorem runCheck_counts_missing_managers (rt : Runtime) (first : Row) (rest : List Row)
    (hcsv : rt.csv = some (first :: rest)) :
    (∀ (pre post : List Str) (key : Str), managerKeys = pre ++ key :: post →
      (∀ k ∈ pre, k ∉ rowKeys first) → key ∈ rowKeys first →
      runCheck rt = checkResult (trimmedNoManagerCount (first :: rest) key)) ∧
    ((∀ k ∈ managerKeys, k ∉ rowKeys first) → runCheck rt = checkResult 0) ∧
    runCheck fiveRowStore = checkResult 2 := by
  refine ⟨?_, ?_, by decide⟩
  · intro pre post key hsplit hpre hkey
    apply runCheck_of_key rt first rest hcsv key
    rw [hsplit]
    exact find?_first _ pre post key (fun k hk => by simpa using hpre k hk) (by simpa using hkey)
  · intro hno
    apply runCheck_of_no_key rt first rest hcsv
    rw [List.find?_eq_none]
    intro k hk
    simpa using hno k hk

/-- Witness of C10 (amended): the five rows of `fiveRowStore`, whose manager
column is `manager`. -/
theorem runCheck_counts_missing_managers_witness :
    runCheck fiveRowStore = checkResult (trimmedNoManagerCount (fiveRowStore.csv.getD [])
      "manager".toList) ∧
    trimmedNoManagerCount (fiveRowStore.csv.getD []) "manager".toList = 2 := by
  refine ⟨?_, by decide⟩
  exact (runCheck_counts_missing_managers fiveRowStore
    [("name".toList, "ann".toList), ("manager".toList, "bob".toList)]
    ((fiveRowStore.csv.getD []).tail) (by decide)).1 [] (managerKeys.tail) "manager".toList
    (by decide) (by decide) (by decide)

/-- C10, as stated, fails: the CSV text with the header `manager` and the data
line backslash-quote, space, backslash-quote gives one row whose manager value is
one space; the check runner reports 1 row without manager, while no row has the
empty string, `null` or `undefined` as its value. -/
theorem runCheck_counts_blank_value :
    blankManagerStore.csv = some [[("manager".toList, " ".toList)]] ∧
    runCheck blankManagerStore = checkResult 1 ∧
    literalNoManagerCount (blankManagerStore.csv.getD []) "manager".toList = 0 := by
  decide


/-! ## Properties of the output log, of a missing node and of a history of one entry -/

theorem pushLog_eq (ts line : Str) (log : List Str) :
    pushLog ts line log = log.drop (log.length - 199) ++ [logEntry (ts, line)] := rfl

theorem pushLogs_concat (log : List Str) (pushes : List (Str × Str)) (p : Str × Str) :
    pushLogs log (pushes ++ [p]) = pushLog p.1 p.2 (pushLogs log pushes) := by
  simp [pushLogs, List.foldl_append]

theorem pushLogs_nil_eq (pushes : List (Str × Str)) :
    pushLogs [] pushes = (pushes.map logEntry).drop (pushes.length - 200) := by
  induction pushes using List.reverseRecOn with
  | nil => rfl
  | append_singleton pushes p ih =>
    rw [pushLogs_concat, pushLog_eq, ih, List.drop_drop, List.map_append, List.map_singleton,
      List.length_drop, List.length_map, List.length_append, List.length_singleton]
    have e : pushes.length - 200 + (pushes.length - (pushes.length - 200) - 199) =
        pushes.length + 1 - 200 := by omega
    rw [e, List.drop_append_of_le_length (by rw [List.length_map]; omega)]

/-- C13.  Whatever the log was, it holds at most 200 entries after a call of
`pushLog`; and after `n` calls on the empty log of a fresh canvas it holds exactly
the last `min n 200` pushed entries, in the order of the calls. -/
theorem pushLog_keeps_last_200 (log : List Str) (ts line : Str) (pushes : List (Str × Str)) :
    (pushLog ts line log).length ≤ 200 ∧
    (pushLogs [] pushes).length ≤ 200 ∧
    (pushLogs [] pushes).length = min pushes.length 200 ∧
    pushLogs [] pushes = (pushes.map logEntry).drop (pushes.length - min pushes.length 200) := by
  refine ⟨?_, ?_, ?_, ?_⟩
  · rw [pushLog_eq, List.length_append, List.length_drop, List.length_singleton]
    omega
  · rw [pushLogs_nil_eq, List.length_drop, List.length_map]
    omega
  · rw [pushLogs_nil_eq, List.length_drop, List.length_map]
    omega
  · have e : pushes.length - min pushes.length 200 = pushes.length - 200 := by omega
    rw [pushLogs_nil_eq, e]

/-- C11.  A run of a node identifier that does not resolve to a node returns a
failed result (the model returns a value, nothing is raised) and leaves the world
as it is: node list, runtime store and log, and the rest, are unchanged. -/
theorem runNode_missing_node (env : Env) (c : Graph) (w : World) (nodeId : Str)
    (op : Option Str) (h : findNode c.nodes nodeId = none) :
    (runNode env c w nodeId op).1.ok = false ∧
    (runNode env c w nodeId op).1.msg = "Node not found.".toList ∧
    (runNode env c w nodeId op).2.nodes = w.nodes ∧
    (runNode env c w nodeId op).2.runtime = w.runtime ∧
    (runNode env c w nodeId op).2.log = w.log ∧
    (runNode env c w nodeId op).2 = w := by
  rw [runNode_not_found env c w nodeId op h]
  exact ⟨rfl, rfl, rfl, rfl, rfl, rfl⟩

/-- Witness of C11: the node `zz` does not exist in `chainWorld`. -/
theorem runNode_missing_node_witness :
    (runNode offlineEnv (snapshot chainWorld) chainWorld "zz".toList none).1.ok = false ∧
    (runNode offlineEnv (snapshot chainWorld) chainWorld "zz".toList none).2 = chainWorld :=
  have h := runNode_missing_node offlineEnv (snapshot chainWorld) chainWorld "zz".toList none
    (by decide)
  ⟨h.1, h.2.2.2.2.2⟩

/-- C14.  With exactly one history entry `undo` is a no-op: the whole world, and
so the history, `future`, the node list and the edge list, is unchanged. -/
theorem undo_single_entry (w : World) (h : w.history.length = 1) :
    undo w = w ∧ (undo w).history = w.history ∧ (undo w).future = w.future ∧
    (undo w).nodes = w.nodes ∧ (undo w).edges = w.edges := by
  have e : undo w = w := by
    obtain ⟨g, hg⟩ := List.length_eq_one.mp h
    unfold undo
    rw [hg]
    rfl
  rw [e]
  exact ⟨rfl, rfl, rfl, rfl, rfl⟩

/-- Witness of C14: the fresh canvas has the single history entry of the empty
graph. -/
theorem undo_single_entry_witness : undo initialWorld = initialWorld :=
  (undo_single_entry initialWorld (by decide)).1


/-! ## Properties of the unique_users operation on a user column -/

theorem rowGet_of_mem_keys (r : Row) (k : Str) (h : k ∈ rowKeys r) :
    ∃ v, rowGet r k = some v := by
  induction r with
  | nil => simp [rowKeys] at h
  | cons p ps ih =>
    rw [rowGet_cons]
    by_cases hp : p.1 = k
    · exact ⟨p.2, by rw [if_pos hp]⟩
    · rw [if_neg hp]
      apply ih
      simp only [rowKeys, List.map_cons, List.mem_cons] at h
      rcases h with h | h
      · exact absurd h.symm hp
      · exact h

theorem uniqueKey_of_first (csv : List Row) (pre post : List Str) (key : Str)
    (hsplit : ["user".toList, "username".toList, "email".toList, "id".toList] =
      pre ++ key :: post)
    (hpre : ∀ k ∈ pre, k ∉ rowKeys (csv.headD [])) (hkey : key ∈ rowKeys (csv.headD [])) :
    uniqueKey csv = JAtom.str key := by
  unfold uniqueKey
  rw [hsplit, find?_first _ pre post key (fun k hk => by simpa using hpre k hk)
    (by simpa using hkey)]

/-- C15.  For every non-empty row sequence in the runtime store whose first row
has one of the keys user, username, email, id, the analysis runner with op
unique_users returns ok, its key being the first of these four (in that order)
among the keys of the first row and its value the number of distinct values of
that key over all rows (a row without the key counting as one more value, the
undefined one; when every row has the key, the number of distinct strings).  The
column `user` with the values `a`, `b`, `a` gives 2. -/
theorem unique_users_counts_column (rt : Runtime) (csv : List Row) (pre post : List Str)
    (key : Str) (hcsv : rt.csv = some csv) (hne : csv ≠ [])
    (hsplit : ["user".toList, "username".toList, "email".toList, "id".toList] =
      pre ++ key :: post)
    (hpre : ∀ k ∈ pre, k ∉ rowKeys (csv.headD [])) (hkey : key ∈ rowKeys (csv.headD [])) :
    (runAnalysis rt (some "unique_users".toList)).1.ok = true ∧
    (runAnalysis rt (some "unique_users".toList)).1.data =
      some (uniqueData (JAtom.str key) ((csv.map (fun r => rowGet r key)).dedup).length) ∧
    ((∀ r ∈ csv, key ∈ rowKeys r) →
      ((csv.map (fun r => rowGet r key)).dedup).length =
        ((csv.map (fun r => (rowGet r key).getD [])).dedup).length) ∧
    (runAnalysis userStore (some "unique_users".toList)).1.data =
      some (uniqueData (JAtom.str "user".toList) 2) := by
  rw [runAnalysis_unique_users rt csv hcsv hne, uniqueKey_of_first csv pre post key hsplit hpre hkey]
  refine ⟨rfl, rfl, ?_, by decide⟩
  intro hall
  have e : csv.map (fun r => rowGet r key) =
      (csv.map (fun r => (rowGet r key).getD [])).map some := by
    rw [List.map_map]
    apply List.map_congr_left
    intro r hr
    obtain ⟨v, hv⟩ := rowGet_of_mem_keys r key (hall r hr)
    simp [hv]
  rw [e, List.dedup_map_of_injective (Option.some_injective _), List.length_map]

/-- Witness of C15: the rows of `userStore`, whose first key among the four is
`user`. -/
theorem unique_users_counts_column_witness :
    (runAnalysis userStore (some "unique_users".toList)).1.ok = true ∧
    ((userStore.csv.getD []).map (fun r => rowGet r "user".toList)).dedup.length = 2 :=
  have h := unique_users_counts_column userStore (userStore.csv.getD []) []
    ["username".toList, "email".toList, "id".toList] "user".toList (by decide) (by decide)
    (by decide) (by decide) (by decide)
  ⟨h.1, by decide⟩


/-! ## Properties of a run of an existing node -/

theorem configGet_cons (p : Str × JVal) (ps : Config) (k : Str) :
    configGet (p :: ps) k = if p.1 = k then some p.2 else configGet ps k := by
  unfold configGet
  by_cases h : p.1 = k <;> simp [List.find?_cons, h]

theorem configGet_map_other (cfg : Config) (k : Str) (v : JVal) (k' : Str) (hk : k' ≠ k) :
    configGet (cfg.map (fun p => if p.1 = k then (k, v) else p)) k' = configGet cfg k' := by
  induction cfg with
  | nil => rfl
  | cons p ps ih =>
    rw [List.map_cons, configGet_cons, configGet_cons, ih]
    by_cases hp : p.1 = k
    · have h1 : ¬ k = k' := fun h => hk h.symm
      have h2 : ¬ p.1 = k' := fun h => hk (h.symm.trans hp)
      simp [hp, h1, h2]
    · simp [hp]

theorem configGet_map_same (cfg : Config) (k : Str) (v : JVal)
    (hk : cfg.any (fun p => p.1 = k) = true) :
    configGet (cfg.map (fun p => if p.1 = k then (k, v) else p)) k = some v := by
  induction cfg with
  | nil => simp at hk
  | cons p ps ih =>
    rw [List.map_cons, configGet_cons]
    by_cases hp : p.1 = k
    · simp [hp]
    · simp only [hp, if_false]
      apply ih
      rw [List.any_cons, decide_eq_false hp, Bool.false_or] at hk
      exact hk

theorem configGet_append_new (cfg : Config) (k : Str) (v : JVal) (k' : Str)
    (hk : cfg.any (fun p => p.1 = k) = false) :
    configGet (cfg ++ [(k, v)]) k' = if k' = k then some v else configGet cfg k' := by
  induction cfg with
  | nil =>
    rw [List.nil_append, configGet_cons]
    by_cases h : k = k'
    · simp [h]
    · have : ¬ k' = k := fun e => h e.symm
      simp [h, this, configGet]
  | cons p ps ih =>
    rw [List.any_cons, Bool.or_eq_false_iff] at hk
    have hp : ¬ p.1 = k := of_decide_eq_false hk.1
    have hps : ps.any (fun p => p.1 = k) = false := hk.2
    rw [List.cons_append, configGet_cons, configGet_cons, ih hps]
    by_cases h : p.1 = k'
    · have : ¬ k' = k := fun e => hp (h.trans e)
      simp [h, this]
    · simp [h]

/-- Reading a configuration after one property of a spread was written. -/
theorem configGet_configSet (cfg : Config) (k : Str) (v : JVal) (k' : Str) :
    configGet (configSet cfg k v) k' = if k' = k then some v else configGet cfg k' := by
  unfold configSet
  by_cases hany : cfg.any (fun p => p.1 = k) = true
  · rw [if_pos hany]
    by_cases e : k' = k
    · rw [if_pos e, e]; exact configGet_map_same cfg k v hany
    · rw [if_neg e]; exact configGet_map_other cfg k v k' e
  · rw [if_neg hany]
    exact configGet_append_new cfg k v k' (Bool.eq_false_iff.mpr hany)

/-- Reading a configuration merged with the patch of a result: the two reserved
keys hold the message and the data (or null), every other key is as before. -/
theorem configGet_merge_resultPatch (cfg : Config) (r : RunResult) (k : Str) :
    configGet (configMerge cfg (resultPatch r)) k =
      if k = "lastResult".toList then some (r.data.getD (JVal.atom JAtom.null))
      else if k = "lastMsg".toList then some (JVal.atom (JAtom.str r.msg))
      else configGet cfg k := by
  have e : configMerge cfg (resultPatch r) =
      configSet (configSet cfg "lastMsg".toList (JVal.atom (JAtom.str r.msg)))
        "lastResult".toList (r.data.getD (JVal.atom JAtom.null)) := rfl
  rw [e, configGet_configSet, configGet_configSet]

theorem settle_nodes_eq (nodes : List Node) (nodeId : Str) (r : RunResult) :
    patchNodeConfig
      (setNodeStatus (setNodeStatus nodes nodeId Status.running) nodeId
        (if r.ok then Status.success else Status.error))
      nodeId (resultPatch r) =
    nodes.map (fun n => if n.id = nodeId then settledNode r n else n) := by
  unfold patchNodeConfig setNodeStatus
  rw [List.map_map, List.map_map]
  apply List.map_congr_left
  intro n _
  by_cases h : n.id = nodeId
  · simp [h, settledNode]
  · simp [h]

theorem findNode_map_settled (nodes : List Node) (nodeId : Str) (r : RunResult) :
    findNode (nodes.map (fun n => if n.id = nodeId then settledNode r n else n)) nodeId =
      (findNode nodes nodeId).map (settledNode r) := by
  induction nodes with
  | nil => rfl
  | cons n ns ih =>
    unfold findNode at ih ⊢
    rw [List.map_cons]
    by_cases h : n.id = nodeId
    · have h' : (settledNode r n).id = nodeId := h
      rw [if_pos h, List.find?_cons_of_pos _ (by simpa using h'),
        List.find?_cons_of_pos _ (by simpa using h)]
      rfl
    · rw [if_neg h, List.find?_cons_of_neg _ (by simpa using h),
        List.find?_cons_of_neg _ (by simpa using h)]
      exact ih

/-- The runtime store after a run whose runner threw is the one before. -/
theorem runNode_thrown (env : Env) (c : Graph) (w : World) (nodeId : Str)
    (op : Option Str) (node : Node) (h : findNode c.nodes nodeId = some node) (m : Str)
    (hm : dispatch env c.nodes w.runtime
      (if node.data.kind = [] then "generic".toList else node.data.kind) nodeId op =
        Except.error m) :
    (runNode env c w nodeId op).1 = ⟨false, if m = [] then "Error".toList else m, none⟩ ∧
    (runNode env c w nodeId op).2.runtime = w.runtime := by
  unfold runNode
  rw [h]
  simp only [hm, settle]
  exact ⟨trivial, trivial⟩

/-- C12.  A run of an existing node returns a result `r` (a value: a thrown
runner exception is turned into a failed result with its message, the runtime
store being left as it was).  Afterwards every node with the identifier of the
run has the status success when `r.ok` and error otherwise, and its previous
configuration merged with `lastMsg: r.msg` and `lastResult: r.data` or null, the
other keys being kept; every other node is unchanged; and the log has received
the one entry `[time] label: msg` at its end (the oldest entry leaving when 200
were held), the label being the identifier when the node has no label. -/
theorem runNode_settles_node (env : Env) (c : Graph) (w : World) (nodeId : Str)
    (op : Option Str) (node : Node) (h : findNode c.nodes nodeId = some node) :
    (runNode env c w nodeId op).2.nodes =
      w.nodes.map (fun n =>
        if n.id = nodeId then settledNode (runNode env c w nodeId op).1 n else n) ∧
    (∀ n ∈ (runNode env c w nodeId op).2.nodes, n.id = nodeId →
      (n.data.status = Status.success ↔ (runNode env c w nodeId op).1.ok = true) ∧
      (n.data.status = Status.error ↔ (runNode env c w nodeId op).1.ok = false)) ∧
    (c.nodes = w.nodes →
      findNode (runNode env c w nodeId op).2.nodes nodeId =
        some (settledNode (runNode env c w nodeId op).1 node)) ∧
    (∀ (cfg : Config) (k : Str),
      configGet (configMerge cfg (resultPatch (runNode env c w nodeId op).1)) k =
        if k = "lastResult".toList then
          some ((runNode env c w nodeId op).1.data.getD (JVal.atom JAtom.null))
        else if k = "lastMsg".toList then
          some (JVal.atom (JAtom.str (runNode env c w nodeId op).1.msg))
        else configGet cfg k) ∧
    (∀ b, b ≠ nodeId →
      (runNode env c w nodeId op).2.nodes.filter (fun n => n.id = b) =
        w.nodes.filter (fun n => n.id = b)) ∧
    (runNode env c w nodeId op).2.log =
      w.log.drop (w.log.length - 199) ++
        [logEntry (env.now, (if node.data.label = [] then nodeId else node.data.label) ++
          ": ".toList ++ (runNode env c w nodeId op).1.msg)] ∧
    (w.log.length ≤ 199 →
      (runNode env c w nodeId op).2.log =
        w.log ++
          [logEntry (env.now, (if node.data.label = [] then nodeId else node.data.label) ++
            ": ".toList ++ (runNode env c w nodeId op).1.msg)]) ∧
    (∀ m, dispatch env c.nodes w.runtime
        (if node.data.kind = [] then "generic".toList else node.data.kind) nodeId op =
          Except.error m →
      (runNode env c w nodeId op).1 = ⟨false, if m = [] then "Error".toList else m, none⟩ ∧
      (runNode env c w nodeId op).2.runtime = w.runtime) := by
  have hnodes : (runNode env c w nodeId op).2.nodes =
      w.nodes.map (fun n =>
        if n.id = nodeId then settledNode (runNode env c w nodeId op).1 n else n) := by
    rw [runNode_nodes env c w nodeId op node h, runNodeEnter, settle_nodes_eq]
  have hlog := runNode_log env c w nodeId op node h
  rw [pushLog_eq] at hlog
  refine ⟨hnodes, ?_, ?_, ?_, ?_, hlog, ?_, ?_⟩
  · intro n hn hid
    rw [hnodes, List.mem_map] at hn
    obtain ⟨n0, _, hn0⟩ := hn
    by_cases h0 : n0.id = nodeId
    · rw [if_pos h0] at hn0
      subst hn0
      cases hok : (runNode env c w nodeId op).1.ok <;> simp [settledNode, hok]
    · rw [if_neg h0] at hn0
      subst hn0
      exact absurd hid h0
  · intro hc
    rw [hnodes, findNode_map_settled, ← hc, h]
    rfl
  · intro cfg k
    exact configGet_merge_resultPatch cfg _ k
  · intro b hb
    exact runNode_other env c w nodeId b op hb
  · intro hlen
    rw [hlog, Nat.sub_eq_zero_of_le hlen, List.drop_zero]
  · intro m hm
    exact runNode_thrown env c w nodeId op node h m hm

/-- Witness of C12: the run of the AI node `m` of `numberPromptWorld` while the
chat request fails.  The runner throws on `prompt.slice`; the result is the
failure with the message of the exception, the node gets the status error and
the message in `lastMsg`, the node `b` keeps its idle status, and the log holds
one entry. -/
theorem runNode_settles_node_witness :
    (runNode offlineEnv (snapshot numberPromptWorld) numberPromptWorld "m".toList none).1 =
      ⟨false, "slice is not a function".toList, none⟩ ∧
    findNode (runNode offlineEnv (snapshot numberPromptWorld) numberPromptWorld
        "m".toList none).2.nodes "m".toList =
      some (settledNode ⟨false, "slice is not a function".toList, none⟩ numberPromptNode) ∧
    statusesOf (runNode offlineEnv (snapshot numberPromptWorld) numberPromptWorld
        "m".toList none).2.nodes "m".toList = [Status.error] ∧
    statusesOf (runNode offlineEnv (snapshot numberPromptWorld) numberPromptWorld
        "m".toList none).2.nodes "b".toList = [Status.idle] ∧
    (runNode offlineEnv (snapshot numberPromptWorld) numberPromptWorld "m".toList none).2.log =
      ["[10:00:00] AI Model: slice is not a function".toList] := by
  have h := runNode_settles_node offlineEnv (snapshot numberPromptWorld) numberPromptWorld
    "m".toList none numberPromptNode (by decide)
  have hr : (runNode offlineEnv (snapshot numberPromptWorld) numberPromptWorld
      "m".toList none).1 = ⟨false, "slice is not a function".toList, none⟩ :=
    (h.2.2.2.2.2.2.2 "slice is not a function".toList rfl).1
  refine ⟨hr, ?_, by decide, by decide, ?_⟩
  · rw [h.2.2.1 rfl, hr]
  · rw [h.2.2.2.2.2.2.1 (by decide), hr]
    decide


/-! ## Properties of the chain walk -/

theorem runNodeAndNext_runPath (envs : Nat → Env) (c : Graph) (n : Str) (rest : List Str) :
    ∀ (step : Nat) (w : World) (fuel : Nat), FirstEdgePath c.edges (n :: rest) →
      AllRunOk envs c step w (n :: rest) → (n :: rest).length ≤ fuel →
      runNodeAndNext envs c fuel step w n = some (runPath envs c step w (n :: rest)) := by
  induction rest generalizing n with
  | nil =>
    intro step w fuel hpath hok hfuel
    obtain ⟨fuel, rfl⟩ : ∃ f, fuel = f + 1 := ⟨fuel - 1, by simp at hfuel; omega⟩
    have hout : getOutgoing c.edges n = [] := hpath
    have hokn : (runNode (envs step) c w n none).1.ok = true := hok.1
    rw [runNodeAndNext_succ, if_neg (by rw [hokn]; simp), hout]
    rfl
  | cons m rest ih =>
    intro step w fuel hpath hok hfuel
    obtain ⟨fuel, rfl⟩ : ∃ f, fuel = f + 1 := ⟨fuel - 1, by simp at hfuel; omega⟩
    have hokn : (runNode (envs step) c w n none).1.ok = true := hok.1
    obtain ⟨tl, htl⟩ : ∃ tl, getOutgoing c.edges n = m :: tl := by
      have hh : (getOutgoing c.edges n).head? = some m := hpath.1
      cases hg : getOutgoing c.edges n with
      | nil => rw [hg] at hh; simp at hh
      | cons x tl =>
        rw [hg] at hh
        simp only [List.head?_cons, Option.some.injEq] at hh
        exact ⟨tl, by rw [hh]⟩
    rw [runNodeAndNext_succ, if_neg (by rw [hokn]; simp), htl]
    simp only
    rw [ih m (step + 1) _ fuel hpath.2 hok.2 (by simp at hfuel ⊢; omega)]
    rfl

theorem runPath_other (envs : Nat → Env) (c : Graph) (b : Str) (path : List Str) :
    ∀ (step : Nat) (w : World), b ∉ path →
      (runPath envs c step w path).nodes.filter (fun n => n.id = b) =
        w.nodes.filter (fun n => n.id = b) := by
  induction path with
  | nil => intro step w _; rfl
  | cons n rest ih =>
    intro step w hb
    have hbn : b ≠ n := fun e => hb (e ▸ List.mem_cons_self _ _)
    rw [runPath, ih (step + 1) _ (fun m => hb (List.mem_cons_of_mem _ m)),
      runNode_other _ _ _ _ _ _ hbn]

theorem pushLogs_cons (log : List Str) (p : Str × Str) (ps : List (Str × Str)) :
    pushLogs log (p :: ps) = pushLogs (pushLog p.1 p.2 log) ps := by
  unfold pushLogs
  rw [List.foldl_cons]

theorem runNode_ok_found (env : Env) (c : Graph) (w : World) (nodeId : Str)
    (op : Option Str) (hok : (runNode env c w nodeId op).1.ok = true) :
    ∃ node, findNode c.nodes nodeId = some node := by
  cases h : findNode c.nodes nodeId with
  | some node => exact ⟨node, rfl⟩
  | none =>
    rw [runNode_not_found env c w nodeId op h] at hok
    exact Bool.noConfusion hok

theorem runPath_log (envs : Nat → Env) (c : Graph) (path : List Str) :
    ∀ (step : Nat) (w : World), AllRunOk envs c step w path →
      ∃ pushes : List (Str × Str), pushes.length = path.length ∧
        (runPath envs c step w path).log = pushLogs w.log pushes := by
  induction path with
  | nil => intro step w _; exact ⟨[], rfl, rfl⟩
  | cons n rest ih =>
    intro step w hok
    obtain ⟨node, hnode⟩ := runNode_ok_found _ _ _ _ _ hok.1
    obtain ⟨pushes, hlen, hlog⟩ := ih (step + 1) _ hok.2
    refine ⟨((envs step).now, (if node.data.label = [] then n else node.data.label) ++
      ": ".toList ++ (runNode (envs step) c w n none).1.msg) :: pushes, by simp [hlen], ?_⟩
    rw [runPath, hlog, runNode_log (envs step) c w n none node hnode, pushLogs_cons]

/-- C16.  When the first outgoing edges from `n` form the path `n :: rest` that
ends on a node without outgoing edge (such a path repeats no node), and every
node of the path runs ok in turn, `runNodeAndNext(n)` returns (as many runs as
the path has nodes suffice) and its effect is exactly the runs of the nodes of
the path, once each and in path order: the log receives one entry per node of
the path, and every node whose identifier is off the path is unchanged, whatever
further outgoing edges the nodes of the path have. -/
theorem chain_walk_follows_first_edges (envs : Nat → Env) (c : Graph) (w : World)
    (n : Str) (rest : List Str) (fuel : Nat)
    (hpath : FirstEdgePath c.edges (n :: rest)) (hok : AllRunOk envs c 0 w (n :: rest))
    (hfuel : (n :: rest).length ≤ fuel) :
    runNodeAndNext envs c fuel 0 w n = some (runPath envs c 0 w (n :: rest)) ∧
    (∀ b, b ∉ n :: rest →
      (runPath envs c 0 w (n :: rest)).nodes.filter (fun x => x.id = b) =
        w.nodes.filter (fun x => x.id = b)) ∧
    (∃ pushes : List (Str × Str), pushes.length = (n :: rest).length ∧
      (runPath envs c 0 w (n :: rest)).log = pushLogs w.log pushes) :=
  ⟨runNodeAndNext_runPath envs c n rest 0 w fuel hpath hok hfuel,
   fun b hb => runPath_other envs c b (n :: rest) 0 w hb,
   runPath_log envs c (n :: rest) 0 w hok⟩

/-- Witness of C16: in `branchWorld` the walk from `s` runs `s` and `a` and leaves
`b`, the target of the second edge of `s`, idle. -/
theorem chain_walk_follows_first_edges_witness :
    runNodeAndNext (fun _ => offlineEnv) (snapshot branchWorld) 2 0 branchWorld "s".toList =
      some (runPath (fun _ => offlineEnv) (snapshot branchWorld) 0 branchWorld
        ["s".toList, "a".toList]) ∧
    (runPath (fun _ => offlineEnv) (snapshot branchWorld) 0 branchWorld
      ["s".toList, "a".toList]).nodes.map (fun x => x.data.status) =
      [Status.success, Status.success, Status.idle] ∧
    (runPath (fun _ => offlineEnv) (snapshot branchWorld) 0 branchWorld
      ["s".toList, "a".toList]).log.length = 2 :=
  have h := chain_walk_follows_first_edges (fun _ => offlineEnv) (snapshot branchWorld)
    branchWorld "s".toList ["a".toList] 2
    ⟨by decide, (by decide : getOutgoing (snapshot branchWorld).edges "a".toList = [])⟩
    ⟨by decide, by decide, trivial⟩ (by decide)
  ⟨h.1, by decide, by decide⟩


/-! ## Properties of the successive values of the node list -/

theorem runNodeTrace_found (env : Env) (c : Graph) (w : World) (nodeId : Str)
    (op : Option Str) (node : Node) (h : findNode c.nodes nodeId = some node) :
    runNodeTrace env c w nodeId op =
      [w.nodes, setNodeStatus w.nodes nodeId Status.running,
        setNodeStatus (setNodeStatus w.nodes nodeId Status.running) nodeId
          (if (runNode env c w nodeId op).1.ok then Status.success else Status.error),
        patchNodeConfig
          (setNodeStatus (setNodeStatus w.nodes nodeId Status.running) nodeId
            (if (runNode env c w nodeId op).1.ok then Status.success else Status.error))
          nodeId (resultPatch (runNode env c w nodeId op).1)] := by
  rw [runNode_result env c w nodeId op node h]
  unfold runNodeTrace
  rw [h]

theorem get?_setNodeStatus (nodes : List Node) (nodeId : Str) (st : Status) (i : Nat) :
    (setNodeStatus nodes nodeId st).get? i =
      (nodes.get? i).map (fun n =>
        if n.id = nodeId then { n with data := { n.data with status := st } } else n) := by
  unfold setNodeStatus
  rw [List.get?_eq_getElem?, List.getElem?_map, List.get?_eq_getElem?]

theorem get?_patchNodeConfig (nodes : List Node) (nodeId : Str) (patch : Config) (i : Nat) :
    (patchNodeConfig nodes nodeId patch).get? i =
      (nodes.get? i).map (fun n =>
        if n.id = nodeId then
          { n with data := { n.data with config := configMerge n.data.config patch } }
        else n) := by
  unfold patchNodeConfig
  rw [List.get?_eq_getElem?, List.getElem?_map, List.get?_eq_getElem?]

/-- The statuses of one position along the four values of a run. -/
theorem statusesAt_run (nodes : List Node) (nodeId : Str) (t : Status) (patch : Config)
    (i : Nat) (n : Node) (hn : nodes.get? i = some n) :
    statusesAt
      [nodes, setNodeStatus nodes nodeId Status.running,
        setNodeStatus (setNodeStatus nodes nodeId Status.running) nodeId t,
        patchNodeConfig (setNodeStatus (setNodeStatus nodes nodeId Status.running) nodeId t)
          nodeId patch] i =
      if n.id = nodeId then
        [some n.data.status, some Status.running, some t, some t]
      else
        [some n.data.status, some n.data.status, some n.data.status, some n.data.status] := by
  unfold statusesAt
  simp only [List.map_cons, List.map_nil, get?_patchNodeConfig, get?_setNodeStatus, hn,
    Option.map_some']
  by_cases h : n.id = nodeId
  · simp [h]
  · simp [h]

/-- The statuses of one position along the three values of an upload. -/
theorem statusesAt_upload (nodes : List Node) (nodeId : Str) (patch : Config)
    (i : Nat) (n : Node) (hn : nodes.get? i = some n) :
    statusesAt
      [nodes, patchNodeConfig nodes nodeId patch,
        setNodeStatus (patchNodeConfig nodes nodeId patch) nodeId Status.success] i =
      if n.id = nodeId then
        [some n.data.status, some n.data.status, some Status.success]
      else [some n.data.status, some n.data.status, some n.data.status] := by
  unfold statusesAt
  simp only [List.map_cons, List.map_nil, get?_patchNodeConfig, get?_setNodeStatus, hn,
    Option.map_some']
  by_cases h : n.id = nodeId
  · simp [h]
  · simp [h]

theorem step_to_running (nodes : List Node) (nodeId : Str) (i : Nat) (n n' : Node)
    (hn : nodes.get? i = some n)
    (hn' : (setNodeStatus nodes nodeId Status.running).get? i = some n') :
    StatusStep n.data.status n'.data.status := by
  rw [get?_setNodeStatus, hn, Option.map_some', Option.some.injEq] at hn'
  subst hn'
  by_cases h : n.id = nodeId
  · rw [if_pos h]; exact Or.inr (Or.inl rfl)
  · rw [if_neg h]; exact Or.inl rfl

theorem step_from_running (nodes : List Node) (nodeId : Str) (ok : Bool) (i : Nat)
    (n n' : Node) (hn : (setNodeStatus nodes nodeId Status.running).get? i = some n)
    (hn' : (setNodeStatus (setNodeStatus nodes nodeId Status.running) nodeId
      (if ok then Status.success else Status.error)).get? i = some n') :
    StatusStep n.data.status n'.data.status := by
  rw [get?_setNodeStatus, hn, Option.map_some', Option.some.injEq] at hn'
  subst hn'
  rw [get?_setNodeStatus] at hn
  cases h0 : nodes.get? i with
  | none => rw [h0] at hn; simp at hn
  | some n0 =>
    rw [h0, Option.map_some', Option.some.injEq] at hn
    subst hn
    by_cases h : n0.id = nodeId
    · simp only [h, if_true]
      refine Or.inr (Or.inr ⟨rfl, ?_⟩)
      cases ok
      · exact Or.inr rfl
      · exact Or.inl rfl
    · simp only [h, if_false]
      exact Or.inl rfl

theorem step_patch (nodes : List Node) (nodeId : Str) (patch : Config) (i : Nat)
    (n n' : Node) (hn : nodes.get? i = some n)
    (hn' : (patchNodeConfig nodes nodeId patch).get? i = some n') :
    StatusStep n.data.status n'.data.status := by
  rw [get?_patchNodeConfig, hn, Option.map_some', Option.some.injEq] at hn'
  subst hn'
  by_cases h : n.id = nodeId
  · rw [if_pos h]; exact Or.inl rfl
  · rw [if_neg h]; exact Or.inl rfl

/-- Along a run every status makes allowed moves only. -/
theorem stepsAllowed_run (nodes : List Node) (nodeId : Str) (ok : Bool) (patch : Config) :
    StepsAllowed
      [nodes, setNodeStatus nodes nodeId Status.running,
        setNodeStatus (setNodeStatus nodes nodeId Status.running) nodeId
          (if ok then Status.success else Status.error),
        patchNodeConfig
          (setNodeStatus (setNodeStatus nodes nodeId Status.running) nodeId
            (if ok then Status.success else Status.error)) nodeId patch] := by
  unfold StepsAllowed
  rw [List.chain'_cons, List.chain'_cons, List.chain'_pair]
  refine ⟨?_, ?_, ?_⟩
  · intro i n n' hn hn'
    exact step_to_running nodes nodeId i n n' hn hn'
  · intro i n n' hn hn'
    exact step_from_running nodes nodeId ok i n n' hn hn'
  · intro i n n' hn hn'
    exact step_patch _ nodeId patch i n n' hn hn'

/-- C8, as amended.  Along the successive values of the node list during a run
of an existing node, the status of every node with the identifier of the run is
first what it was, then running, then success or error according to the result
(so a later run of a settled node passes through running again), the status of
every other node stays what it was, and every move is an allowed one: a run
never takes a status from idle directly to success or error.  The last value is
the node list that `runNode` leaves; a run of a missing node calls no setter.
Along an upload the status of the node of the upload is what it was, and then
success directly, whatever it was, and no other status changes; along a
configuration update no status changes.  In `chainWorld` the run of the script
node `a` takes its status through idle, running, error. -/
theorem status_transitions (env : Env) (c : Graph) (w : World) (nodeId : Str)
    (op : Option Str) (ts : Str) (file : UploadFile) (patch : Config) :
    (∀ node, findNode c.nodes nodeId = some node →
      (runNodeTrace env c w nodeId op).getLast? = some (runNode env c w nodeId op).2.nodes ∧
      (∀ (i : Nat) (n : Node), w.nodes.get? i = some n →
        statusesAt (runNodeTrace env c w nodeId op) i =
          if n.id = nodeId then
            [some n.data.status, some Status.running,
              some (if (runNode env c w nodeId op).1.ok then Status.success else Status.error),
              some (if (runNode env c w nodeId op).1.ok then Status.success else Status.error)]
          else
            [some n.data.status, some n.data.status, some n.data.status, some n.data.status]) ∧
      StepsAllowed (runNodeTrace env c w nodeId op)) ∧
    (findNode c.nodes nodeId = none →
      runNodeTrace env c w nodeId op = [w.nodes] ∧ (runNode env c w nodeId op).2 = w) ∧
    (onUploadTrace w nodeId file).getLast? = some (onUpload ts w nodeId file).nodes ∧
    (∀ (i : Nat) (n : Node), w.nodes.get? i = some n →
      statusesAt (onUploadTrace w nodeId file) i =
        if n.id = nodeId then [some n.data.status, some n.data.status, some Status.success]
        else [some n.data.status, some n.data.status, some n.data.status]) ∧
    (onUpdateConfigTrace w nodeId patch).getLast? =
      some (onUpdateConfig w nodeId patch).nodes ∧
    StepsAllowed (onUpdateConfigTrace w nodeId patch) ∧
    statusesAt (runNodeTrace offlineEnv (snapshot chainWorld) chainWorld "a".toList none) 1 =
      [some Status.idle, some Status.running, some Status.error, some Status.error] := by
  refine ⟨?_, ?_, rfl, ?_, rfl, ?_, by decide⟩
  · intro node h
    rw [runNodeTrace_found env c w nodeId op node h]
    refine ⟨?_, ?_, ?_⟩
    · rw [runNode_nodes env c w nodeId op node h]
      rfl
    · intro i n hn
      exact statusesAt_run w.nodes nodeId _ _ i n hn
    · exact stepsAllowed_run w.nodes nodeId _ _
  · intro h
    refine ⟨?_, by rw [runNode_not_found env c w nodeId op h]⟩
    unfold runNodeTrace
    rw [h]
  · intro i n hn
    exact statusesAt_upload w.nodes nodeId _ i n hn
  · unfold StepsAllowed onUpdateConfigTrace
    rw [List.chain'_pair]
    intro i n n' hn hn'
    exact step_patch w.nodes nodeId patch i n n' hn hn'

end AgentBuilder
